import Mathlib

/-!
Shallow embedding of the saga-orchestration core of the repository:
the SagaOrchestrator (src/unnamed/part_002) and the TransactionalOutbox
(src/src/patterns/TransactionalOutbox.ts), over the data model of
src/unnamed/part_000 (types).

Modelling conventions:
* asynchronous fallible calls (step actions, compensations, hooks, broker
  publishes) are modelled as pure functions returning Except;
* a step action may behave differently on each retry, so it is modelled as
  a function of the attempt number as well as the context;
* the stores (SagaStore, OutboxStore) are modelled as reliable: each
  persistence call is recorded as a trace event instead of performing IO.
  Dates (startedAt / completedAt / publishedAt stamps) are not modelled;
* observable effects are accumulated in an explicit trace list, so that
  ordering claims (persist cadence, backoff sleeps, compensation order)
  become statements about the trace.
-/

set_option maxHeartbeats 1000000

section SagaModelDefs

variable {Ctx Out Err : Type}

inductive SagaStatus where
  | PENDING
  | RUNNING
  | COMPLETED
  | FAILED
  | COMPENSATING
  | COMPENSATED
deriving DecidableEq, Repr

inductive StepStatus where
  | SUCCESS
  | FAILED
  | COMPENSATED
deriving DecidableEq, Repr

structure RetryPolicy where
  maxAttempts : Nat
  backoffMs : Nat
  backoffMultiplier : Nat
deriving DecidableEq, Repr

structure StepResult (Ctx Out Err : Type) where
  stepId : String
  stepName : String
  status : StepStatus
  input : Ctx
  output : Option Out
  error : Option Err
  attempts : Nat
deriving DecidableEq, Repr

structure TransactionStep (Ctx Out Err : Type) where
  id : String
  name : String
  action : Ctx → Nat → Except Err Out
  compensation : Option (Ctx → Option Out → Except Err Unit) := none
  retryPolicy : Option RetryPolicy := none
  timeout : Option Nat := none

structure SagaDefinition (Ctx Out Err : Type) where
  id : String
  name : String
  steps : List (TransactionStep Ctx Out Err)
  onSuccess : Option (Ctx → Except Err Unit) := none
  onFailure : Option (Ctx → Option Err → Except Err Unit) := none

structure SagaExecution (Ctx Out Err : Type) where
  id : String
  sagaId : String
  status : SagaStatus
  currentStep : Option Nat
  context : Ctx
  stepResults : List (StepResult Ctx Out Err)
  error : Option Err
deriving DecidableEq, Repr

inductive TraceEvent (Ctx Out Err : Type) where
  | save (e : SagaExecution Ctx Out Err)
  | update (e : SagaExecution Ctx Out Err)
  | sleep (ms : Nat)
  | actionCall (stepId : String) (attempt : Nat)
  | compCall (stepId : String) (input : Ctx) (output : Option Out)
deriving DecidableEq, Repr

inductive StepsOutcome (Err : Type) where
  | completed
  | failed (e : Option Err)
deriving DecidableEq, Repr

def executeStepLoop (p : RetryPolicy) (step : TransactionStep Ctx Out Err)
    (context : Ctx) (attempt : Nat) (fuel : Nat)
    (sr : StepResult Ctx Out Err) :
    List (TraceEvent Ctx Out Err) × StepResult Ctx Out Err :=
  match fuel with
  | 0 => ([], { sr with status := .FAILED })
  | f + 1 =>
    let sr1 := { sr with attempts := attempt }
    match step.action context attempt with
    | .ok output =>
      ([.actionCall step.id attempt],
        { sr1 with output := some output, status := .SUCCESS })
    | .error e =>
      let sr2 := { sr1 with error := some e }
      if attempt = p.maxAttempts then
        ([.actionCall step.id attempt], { sr2 with status := .FAILED })
      else
        let delay := p.backoffMs * p.backoffMultiplier ^ (attempt - 1)
        let rest := executeStepLoop p step context (attempt + 1) f sr2
        (.actionCall step.id attempt :: .sleep delay :: rest.1, rest.2)

def executeStep (dflt : RetryPolicy) (step : TransactionStep Ctx Out Err)
    (context : Ctx) ( _stepIndex : Nat) :
    List (TraceEvent Ctx Out Err) × StepResult Ctx Out Err :=
  let sr0 : StepResult Ctx Out Err :=
    { stepId := step.id, stepName := step.name, status := .SUCCESS,
      input := context, output := none, error := none, attempts := 0 }
  let p := step.retryPolicy.getD dflt
  executeStepLoop p step context 1 p.maxAttempts sr0

def executeStepsLoop (dflt : RetryPolicy) (context : Ctx)
    (remaining : List (TransactionStep Ctx Out Err)) (i : Nat)
    (exec : SagaExecution Ctx Out Err) :
    List (TraceEvent Ctx Out Err) × SagaExecution Ctx Out Err × StepsOutcome Err :=
  match remaining with
  | [] => ([], exec, .completed)
  | step :: rest =>
    let exec1 := { exec with currentStep := some i }
    let sres := executeStep dflt step context i
    let exec2 := { exec1 with stepResults := exec1.stepResults ++ [sres.2] }
    if sres.2.status = .FAILED then
      (sres.1, exec2, .failed sres.2.error)
    else
      let more := executeStepsLoop dflt context rest (i + 1) exec2
      (sres.1 ++ .update exec2 :: more.1, more.2)

def executeSteps (dflt : RetryPolicy) (defn : SagaDefinition Ctx Out Err)
    (exec : SagaExecution Ctx Out Err) :
    List (TraceEvent Ctx Out Err) × SagaExecution Ctx Out Err × StepsOutcome Err :=
  let exec1 := { exec with status := .RUNNING }
  let r := executeStepsLoop dflt exec1.context defn.steps 0 exec1
  (.update exec1 :: r.1, r.2)

def compSweepOne (steps : List (TransactionStep Ctx Out Err))
    (results : List (StepResult Ctx Out Err)) (idx : Nat) :
    List (TraceEvent Ctx Out Err) × List (StepResult Ctx Out Err) :=
  match results[idx]? with
  | none => ([], results)
  | some sr =>
    match steps.find? (fun s => s.id == sr.stepId) with
    | none => ([], results)
    | some step =>
      match step.compensation with
      | none => ([], results)
      | some comp =>
        match comp sr.input sr.output with
        | .ok _ =>
          ([.compCall sr.stepId sr.input sr.output],
            results.set idx { sr with status := .COMPENSATED })
        | .error _ =>
          ([.compCall sr.stepId sr.input sr.output], results)

def compSweep (steps : List (TransactionStep Ctx Out Err))
    (results : List (StepResult Ctx Out Err)) (idxs : List Nat) :
    List (TraceEvent Ctx Out Err) × List (StepResult Ctx Out Err) :=
  match idxs with
  | [] => ([], results)
  | i :: rest =>
    let one := compSweepOne steps results i
    let more := compSweep steps one.2 rest
    (one.1 ++ more.1, more.2)

def successAt (results : List (StepResult Ctx Out Err)) (j : Nat) : Bool :=
  match results[j]? with
  | some r => r.status == .SUCCESS
  | none => false

def compensate (defn : SagaDefinition Ctx Out Err)
    (exec : SagaExecution Ctx Out Err) (failureError : Option Err) :
    List (TraceEvent Ctx Out Err) × SagaExecution Ctx Out Err × Option Err :=
  let exec1 := { exec with status := .COMPENSATING }
  let idxs :=
    ((List.range exec1.stepResults.length).filter
      (successAt exec1.stepResults)).reverse
  let swept := compSweep defn.steps exec1.stepResults idxs
  let exec2 := { exec1 with stepResults := swept.2, status := .COMPENSATED }
  let hookErr : Option Err :=
    match defn.onFailure with
    | none => none
    | some f =>
      match f exec2.context failureError with
      | .ok _ => none
      | .error e => some e
  (.update exec1 :: swept.1, exec2, hookErr)

def initExec (defn : SagaDefinition Ctx Out Err) (ctx : Ctx) :
    SagaExecution Ctx Out Err :=
  { id := "execution-id", sagaId := defn.id, status := .PENDING,
    currentStep := none, context := ctx, stepResults := [], error := none }

def executeSaga (dflt : RetryPolicy) (defn : SagaDefinition Ctx Out Err)
    (ctx : Ctx) :
    List (TraceEvent Ctx Out Err) × SagaExecution Ctx Out Err × Option Err :=
  let exec0 := initExec defn ctx
  let r := executeSteps dflt defn exec0
  match r.2.2 with
  | .completed =>
    let exec2 := { r.2.1 with status := .COMPLETED }
    match defn.onSuccess with
    | none => (.save exec0 :: r.1 ++ [.update exec2], exec2, none)
    | some f =>
      match f ctx with
      | .ok _ => (.save exec0 :: r.1 ++ [.update exec2], exec2, none)
      | .error e =>
        let exec3 := { exec2 with status := .FAILED, error := some e }
        (.save exec0 :: r.1 ++ [.update exec3], exec3, some e)
  | .failed err =>
    let c := compensate defn r.2.1 err
    match c.2.2 with
    | none => (.save exec0 :: r.1 ++ c.1 ++ [.update c.2.1], c.2.1, none)
    | some e =>
      let exec3 := { c.2.1 with status := .FAILED, error := some e }
      (.save exec0 :: r.1 ++ c.1 ++ [.update exec3], exec3, some e)

end SagaModelDefs

section OutboxModelDefs

variable {P : Type}

inductive OutboxStatus where
  | PENDING
  | PUBLISHED
  | FAILED
deriving DecidableEq, Repr

structure OutboxEvent (P : Type) where
  id : String
  sagaId : String
  stepId : String
  eventType : String
  payload : P
  status : OutboxStatus
  createdAt : Nat
  retryCount : Nat
deriving DecidableEq, Repr

structure EventEnvelope (P : Type) where
  eventId : String
  sagaId : String
  stepId : String
  eventType : String
  payload : P
  timestamp : Nat
deriving DecidableEq, Repr

inductive OutboxAction (P : Type) where
  | publishCall (topic : String) (env : EventEnvelope P)
  | markPublished (id : String)
  | markFailed (id : String) (reason : String)
deriving DecidableEq, Repr

def isAZ (c : Char) : Bool := 65 ≤ c.toNat && c.toNat ≤ 90

def lowerChar (c : Char) : Char :=
  if h : isAZ c = true then
    Char.ofNatAux (c.toNat + 32)
      (by simp only [isAZ, Bool.and_eq_true, decide_eq_true_eq] at h
          exact Or.inl (by omega))
  else c

def dotBefore (c : Char) : List Char :=
  if isAZ c then ['.', c] else [c]

def stripLeadingDot (l : List Char) : List Char :=
  match l with
  | [] => []
  | c :: rest => if c = '.' then rest else c :: rest

def getTopicForEvent (eventType : String) : String :=
  let dotted := eventType.data.flatMap dotBefore
  let lowered := dotted.map lowerChar
  ⟨stripLeadingDot lowered⟩

def outboxEnvelope (event : OutboxEvent P) : EventEnvelope P :=
  { eventId := event.id, sagaId := event.sagaId, stepId := event.stepId,
    eventType := event.eventType, payload := event.payload,
    timestamp := event.createdAt }

def processEvent (maxRetries : Nat)
    (broker : String → EventEnvelope P → Except String Unit)
    (event : OutboxEvent P) :
    List (OutboxAction P) × OutboxEvent P :=
  if maxRetries ≤ event.retryCount then
    ([.markFailed event.id "Max retries exceeded"], event)
  else
    let topic := getTopicForEvent event.eventType
    match broker topic (outboxEnvelope event) with
    | .ok _ =>
      ([.publishCall topic (outboxEnvelope event), .markPublished event.id],
        event)
    | .error msg =>
      ([.publishCall topic (outboxEnvelope event), .markFailed event.id msg],
        { event with retryCount := event.retryCount + 1 })

structure OutboxStats where
  pending : Nat
  published : Nat
  failed : Nat
deriving DecidableEq, Repr

def getStats (pendingEvents : List (OutboxEvent P)) : OutboxStats :=
  { pending := pendingEvents.length, published := 0, failed := 0 }

def specTopicForEvent (eventType : String) : String :=
  let dotted :=
    match eventType.data with
    | [] => []
    | c :: rest => c :: rest.flatMap dotBefore
  ⟨stripLeadingDot (dotted.map lowerChar)⟩

end OutboxModelDefs

section StepLemmasDefs

variable {Ctx Out Err : Type}

def stepRes (dflt : RetryPolicy) (ctx : Ctx) (s : TransactionStep Ctx Out Err) :
    StepResult Ctx Out Err :=
  (executeStep dflt s ctx 0).2

def stepTr (dflt : RetryPolicy) (ctx : Ctx) (s : TransactionStep Ctx Out Err) :
    List (TraceEvent Ctx Out Err) :=
  (executeStep dflt s ctx 0).1

end StepLemmasDefs

section AdjPairDefs

variable {α : Type}

def adjPair (tr : List α) (x y : α) : Prop :=
  ∃ l1 l2, tr = l1 ++ x :: y :: l2

end AdjPairDefs

section StepsLoopLemmasDefs

variable {Ctx Out Err : Type}

def genExec (dflt : RetryPolicy) (ctx : Ctx) :
    List (TransactionStep Ctx Out Err) → Nat → SagaExecution Ctx Out Err →
    SagaExecution Ctx Out Err
  | [], _, exec => exec
  | s :: rest, i, exec =>
    genExec dflt ctx rest (i + 1)
      { exec with
        currentStep := some i,
        stepResults := exec.stepResults ++ [stepRes dflt ctx s] }

def genTrace (dflt : RetryPolicy) (ctx : Ctx) :
    List (TransactionStep Ctx Out Err) → Nat → SagaExecution Ctx Out Err →
    List (TraceEvent Ctx Out Err)
  | [], _, _ => []
  | s :: rest, i, exec =>
    let exec2 : SagaExecution Ctx Out Err :=
      { exec with
        currentStep := some i,
        stepResults := exec.stepResults ++ [stepRes dflt ctx s] }
    stepTr dflt ctx s ++ .update exec2 :: genTrace dflt ctx rest (i + 1) exec2

end StepsLoopLemmasDefs

section PersistLemmasDefs

variable {Ctx Out Err : Type}

def persistedProj (tr : List (TraceEvent Ctx Out Err)) :
    List (SagaStatus × Nat × Option Nat) :=
  tr.filterMap fun ev =>
    match ev with
    | .save e => some (e.status, e.stepResults.length, e.currentStep)
    | .update e => some (e.status, e.stepResults.length, e.currentStep)
    | _ => none

end PersistLemmasDefs

section OrchestratorLemmasDefs

variable {Ctx Out Err : Type}

def onFailureOk (defn : SagaDefinition Ctx Out Err) (ctx : Ctx) : Prop :=
  ∀ f, defn.onFailure = some f → ∀ oe, ∃ u, f ctx oe = .ok u

def onSuccessOk (defn : SagaDefinition Ctx Out Err) (ctx : Ctx) : Prop :=
  ∀ f, defn.onSuccess = some f → ∃ u, f ctx = .ok u

def compCallIds (tr : List (TraceEvent Ctx Out Err)) : List String :=
  tr.filterMap fun ev =>
    match ev with
    | .compCall id _ _ => some id
    | _ => none

def runningExec (defn : SagaDefinition Ctx Out Err) (ctx : Ctx) :
    SagaExecution Ctx Out Err :=
  { initExec defn ctx with status := .RUNNING }

def failMidExec (dflt : RetryPolicy) (defn : SagaDefinition Ctx Out Err)
    (ctx : Ctx) (k : Nat) (sk : TransactionStep Ctx Out Err) :
    SagaExecution Ctx Out Err :=
  { genExec dflt ctx (defn.steps.take k) 0 (runningExec defn ctx) with
    currentStep := some (0 + (defn.steps.take k).length),
    stepResults :=
      (genExec dflt ctx (defn.steps.take k) 0 (runningExec defn ctx)).stepResults ++
        [stepRes dflt ctx sk] }

end OrchestratorLemmasDefs

section WitnessFixturesDefs

def dfltW : RetryPolicy :=
  { maxAttempts := 3, backoffMs := 1000, backoffMultiplier := 2 }

def stepOkW : TransactionStep Nat Nat String :=
  { id := "s1", name := "one", action := fun c _ => .ok (c + 1),
    compensation := some fun _ _ => .ok () }

def stepFailW : TransactionStep Nat Nat String :=
  { id := "s2", name := "two", action := fun _ _ => .error "boom" }

def stepOneW : TransactionStep Nat Nat String :=
  { id := "sone", name := "single", action := fun _ _ => .error "boom",
    retryPolicy :=
      some { maxAttempts := 1, backoffMs := 500, backoffMultiplier := 2 } }

def stepCompFailW : TransactionStep Nat Nat String :=
  { id := "s3", name := "three", action := fun c _ => .ok (c + 3),
    compensation := some fun _ _ => .error "compfail" }

def defnOkW : SagaDefinition Nat Nat String :=
  { id := "sagaOk", name := "ok", steps := [stepOkW] }

def defnFailW : SagaDefinition Nat Nat String :=
  { id := "sagaFail", name := "fail", steps := [stepOkW, stepFailW] }

def defnFail1W : SagaDefinition Nat Nat String :=
  { id := "sagaFail1", name := "fail1", steps := [stepFailW] }

def defnHookThrowW : SagaDefinition Nat Nat String :=
  { id := "sagaHook", name := "hook", steps := [stepOkW],
    onSuccess := some fun _ => .error "hookboom" }

def defnFailHookThrowW : SagaDefinition Nat Nat String :=
  { id := "sagaFailHook", name := "failhook", steps := [stepOkW, stepFailW],
    onFailure := some fun _ _ => .error "failhook" }

def r1W : StepResult Nat Nat String :=
  { stepId := "s3", stepName := "three", status := .SUCCESS, input := 7,
    output := some 10, error := none, attempts := 1 }

def defnC5W : SagaDefinition Nat Nat String :=
  { id := "sagaC5", name := "c5", steps := [stepCompFailW] }

def execC5W : SagaExecution Nat Nat String :=
  { id := "x", sagaId := "sagaC5", status := .RUNNING, currentStep := some 0,
    context := 7, stepResults := [r1W], error := some "boom" }

def brokerOkW : String → EventEnvelope Nat → Except String Unit :=
  fun _ _ => .ok ()

def brokerFailW : String → EventEnvelope Nat → Except String Unit :=
  fun _ _ => .error "publish down"

def evCapW : OutboxEvent Nat :=
  { id := "e1", sagaId := "g", stepId := "s", eventType := "PaymentProcessed",
    payload := 0, status := .PENDING, createdAt := 5, retryCount := 3 }

def evFreshW : OutboxEvent Nat :=
  { id := "e2", sagaId := "g", stepId := "s", eventType := "Created",
    payload := 1, status := .PENDING, createdAt := 7, retryCount := 0 }

end WitnessFixturesDefs

section OutboxModel

variable {P : Type}

theorem lowerChar_ne_dot (c : Char) (h : isAZ c = true) :
    lowerChar c ≠ Char.ofNat 46 := by
  intro hc
  have ht : (lowerChar c).toNat = c.toNat + 32 := by
    rw [lowerChar, dif_pos h]
    rfl
  rw [hc] at ht
  simp only [isAZ, Bool.and_eq_true, decide_eq_true_eq] at h
  have h46 : (Char.ofNat 46).toNat = 46 := rfl
  omega

theorem lowerChar_dot : lowerChar (Char.ofNat 46) = Char.ofNat 46 := rfl

theorem getTopic_eq_spec (s : String) :
    getTopicForEvent s = specTopicForEvent s := by
  rw [getTopicForEvent, specTopicForEvent]
  rcases hd : s.data with _ | ⟨c, rest⟩
  · rfl
  · dsimp only
    rw [List.flatMap_cons]
    by_cases hAZ : isAZ c = true
    · have hdb : dotBefore c = ['.', c] := by rw [dotBefore, if_pos hAZ]
      rw [hdb]
      simp only [List.cons_append, List.map_cons, stripLeadingDot, List.nil_append]
      rw [if_pos lowerChar_dot, if_neg (lowerChar_ne_dot c hAZ)]
    · have hdb : dotBefore c = [c] := by rw [dotBefore, if_neg hAZ]
      rw [hdb, List.singleton_append]

end OutboxModel

section StepLemmas

variable {Ctx Out Err : Type}

theorem executeStep_idx (dflt : RetryPolicy) (s : TransactionStep Ctx Out Err)
    (ctx : Ctx) (i : Nat) :
    executeStep dflt s ctx i = (stepTr dflt ctx s, stepRes dflt ctx s) := rfl

theorem executeStepLoop_events (p : RetryPolicy) (s : TransactionStep Ctx Out Err)
    (c : Ctx) (a f : Nat) (sr : StepResult Ctx Out Err) :
    ∀ ev ∈ (executeStepLoop p s c a f sr).1,
      (∃ n, ev = .actionCall s.id n) ∨ (∃ d, ev = .sleep d) := by
  induction f generalizing a sr with
  | zero => intro ev hev; simp [executeStepLoop] at hev
  | succ f ih =>
    intro ev hev
    simp only [executeStepLoop] at hev
    rcases hact : s.action c a with e | o
    · rw [hact] at hev
      by_cases hlast : a = p.maxAttempts
      · simp [hlast] at hev
        exact Or.inl ⟨_, hev⟩
      · simp [hlast] at hev
        rcases hev with h | h | h
        · exact Or.inl ⟨a, h⟩
        · exact Or.inr ⟨_, h⟩
        · exact ih (a + 1) _ ev h
    · rw [hact] at hev
      simp at hev
      exact Or.inl ⟨a, hev⟩

theorem executeStepLoop_head (p : RetryPolicy) (s : TransactionStep Ctx Out Err)
    (c : Ctx) (a f : Nat) (sr : StepResult Ctx Out Err) (hf : f ≠ 0) :
    (executeStepLoop p s c a f sr).1.head? = some (.actionCall s.id a) := by
  match f with
  | 0 => exact absurd rfl hf
  | g + 1 =>
    simp only [executeStepLoop]
    rcases hact : s.action c a with e | o
    · by_cases hlast : a = p.maxAttempts <;> simp [hlast]
    · simp

theorem executeStepLoop_zero (p : RetryPolicy) (s : TransactionStep Ctx Out Err)
    (c : Ctx) (a : Nat) (sr : StepResult Ctx Out Err) :
    (executeStepLoop p s c a 0 sr).1 = [] := rfl

theorem executeStepLoop_fields (p : RetryPolicy) (s : TransactionStep Ctx Out Err)
    (c : Ctx) (a f : Nat) (sr : StepResult Ctx Out Err) :
    (executeStepLoop p s c a f sr).2.stepId = sr.stepId ∧
    (executeStepLoop p s c a f sr).2.stepName = sr.stepName ∧
    (executeStepLoop p s c a f sr).2.input = sr.input := by
  induction f generalizing a sr with
  | zero => exact ⟨rfl, rfl, rfl⟩
  | succ f ih =>
    simp only [executeStepLoop]
    rcases hact : s.action c a with e | o
    · by_cases hlast : a = p.maxAttempts
      · simp [hlast]
      · simp only [hlast, if_false]
        exact ih (a + 1) _
    · exact ⟨rfl, rfl, rfl⟩

theorem stepRes_stepId (dflt : RetryPolicy) (ctx : Ctx)
    (s : TransactionStep Ctx Out Err) : (stepRes dflt ctx s).stepId = s.id :=
  (executeStepLoop_fields _ s ctx 1 _ _).1

theorem stepRes_input (dflt : RetryPolicy) (ctx : Ctx)
    (s : TransactionStep Ctx Out Err) : (stepRes dflt ctx s).input = ctx :=
  (executeStepLoop_fields _ s ctx 1 _ _).2.2

theorem executeStep_first_success (dflt : RetryPolicy)
    (s : TransactionStep Ctx Out Err) (ctx : Ctx) (o : Out)
    (hok : s.action ctx 1 = .ok o)
    (hmax : 1 ≤ (s.retryPolicy.getD dflt).maxAttempts) :
    stepTr dflt ctx s = [.actionCall s.id 1] ∧
    stepRes dflt ctx s =
      { stepId := s.id, stepName := s.name, status := .SUCCESS,
        input := ctx, output := some o, error := none, attempts := 1 } := by
  unfold stepTr stepRes executeStep
  rcases hm : (s.retryPolicy.getD dflt).maxAttempts with _ | m
  · omega
  · dsimp only
    rw [hm]
    simp only [executeStepLoop, hok]
    exact ⟨trivial, trivial⟩

end StepLemmas

section AdjPair

variable {α : Type}

theorem adjPair_nil (x y : α) : ¬ adjPair ([] : List α) x y := by
  rintro ⟨l1, l2, h⟩
  cases l1 <;> simp at h

theorem adjPair_singleton (a x y : α) : ¬ adjPair [a] x y := by
  rintro ⟨l1, l2, h⟩
  cases l1 <;> simp at h

theorem adjPair_cons (e : α) (t : List α) (x y : α) :
    adjPair (e :: t) x y ↔
      (e = x ∧ ∃ l2, t = y :: l2) ∨ adjPair t x y := by
  constructor
  · rintro ⟨l1, l2, h⟩
    match l1 with
    | [] =>
      rw [List.nil_append] at h
      exact Or.inl ⟨(List.cons.injEq _ _ _ _ ▸ h).1, l2,
        (List.cons.injEq _ _ _ _ ▸ h).2⟩
    | a :: l1' =>
      rw [List.cons_append] at h
      exact Or.inr ⟨l1', l2, (List.cons.injEq _ _ _ _ ▸ h).2⟩
  · rintro (⟨rfl, l2, rfl⟩ | ⟨l1, l2, rfl⟩)
    · exact ⟨[], l2, rfl⟩
    · exact ⟨e :: l1, l2, rfl⟩

theorem adjPair_cons_of (e : α) (t : List α) (x y : α) (h : adjPair t x y) :
    adjPair (e :: t) x y :=
  (adjPair_cons e t x y).mpr (Or.inr h)

end AdjPair

section BackoffLemmas

variable {Ctx Out Err : Type}

theorem executeStepLoop_adj_sound (p : RetryPolicy)
    (s : TransactionStep Ctx Out Err) (c : Ctx) :
    ∀ (f a : Nat) (sr : StepResult Ctx Out Err) (d n : Nat), 1 ≤ a →
      adjPair (executeStepLoop p s c a f sr).1 (.sleep d) (.actionCall s.id n) →
      d = p.backoffMs * p.backoffMultiplier ^ (n - 2) := by
  intro f
  induction f with
  | zero =>
    intro a sr d n _ hadj
    rw [executeStepLoop_zero] at hadj
    exact absurd hadj (adjPair_nil _ _)
  | succ f ih =>
    intro a sr d n ha hadj
    rcases hact : s.action c a with e | o
    · by_cases hlast : a = p.maxAttempts
      · simp only [executeStepLoop, hact, if_pos hlast] at hadj
        exact absurd hadj (adjPair_singleton _ _ _)
      · simp only [executeStepLoop, hact, if_neg hlast] at hadj
        rcases (adjPair_cons _ _ _ _).mp hadj with ⟨hx, _⟩ | hadj2
        · exact absurd hx (by simp)
        · rcases (adjPair_cons _ _ _ _).mp hadj2 with ⟨hx, l2, hl2⟩ | hadj3
          · simp only [TraceEvent.sleep.injEq] at hx
            have hne : f ≠ 0 := by
              intro h0
              rw [h0, executeStepLoop_zero] at hl2
              exact List.cons_ne_nil _ _ hl2.symm
            have hh := executeStepLoop_head p s c (a + 1) f
              { sr with error := some e, attempts := a } hne
            have hcomb : some (TraceEvent.actionCall s.id (a + 1) :
                TraceEvent Ctx Out Err) =
                some (TraceEvent.actionCall s.id n) :=
              hh.symm.trans (congrArg List.head? hl2)
            simp only [Option.some.injEq, TraceEvent.actionCall.injEq] at hcomb
            rw [← hx, ← hcomb.2]
            have hexp : a + 1 - 2 = a - 1 := by omega
            rw [hexp]
          · exact ih (a + 1) _ d n (by omega) hadj3
    · simp only [executeStepLoop, hact] at hadj
      exact absurd hadj (adjPair_singleton _ _ _)

theorem executeStepLoop_adj_exists (p : RetryPolicy)
    (s : TransactionStep Ctx Out Err) (c : Ctx) :
    ∀ (f a : Nat) (sr : StepResult Ctx Out Err) (n : Nat), a < n →
      (TraceEvent.actionCall s.id n : TraceEvent Ctx Out Err) ∈
        (executeStepLoop p s c a f sr).1 →
      adjPair (executeStepLoop p s c a f sr).1
        (.sleep (p.backoffMs * p.backoffMultiplier ^ (n - 2)))
        (.actionCall s.id n) := by
  intro f
  induction f with
  | zero =>
    intro a sr n _ hmem
    rw [executeStepLoop_zero] at hmem
    simp at hmem
  | succ f ih =>
    intro a sr n hlt hmem
    rcases hact : s.action c a with e | o
    · by_cases hlast : a = p.maxAttempts
      · simp only [executeStepLoop, hact, if_pos hlast] at hmem ⊢
        simp at hmem
        omega
      · simp only [executeStepLoop, hact, if_neg hlast] at hmem ⊢
        rw [List.mem_cons, List.mem_cons] at hmem
        rcases hmem with h1 | h2 | h3
        · simp at h1
          omega
        · simp at h2
        · by_cases h4 : n = a + 1
          · have hne : f ≠ 0 := by
              intro h0
              rw [h0, executeStepLoop_zero] at h3
              simp at h3
            have hh := executeStepLoop_head p s c (a + 1) f
              { sr with error := some e, attempts := a } hne
            obtain ⟨tr', htr⟩ : ∃ tr',
                (executeStepLoop p s c (a + 1) f
                  { sr with error := some e, attempts := a }).1 =
                  .actionCall s.id (a + 1) :: tr' := by
              cases hl : (executeStepLoop p s c (a + 1) f
                  { sr with error := some e, attempts := a }).1 with
              | nil => rw [hl] at h3; simp at h3
              | cons hd tl =>
                rw [hl] at hh
                simp at hh
                exact ⟨tl, by rw [hh]⟩
            rw [htr]
            subst h4
            have hexp : a + 1 - 2 = a - 1 := by omega
            rw [hexp]
            exact ⟨[.actionCall s.id a], tr', rfl⟩
          · have hmem3 := ih (a + 1) _ n (by omega) h3
            exact adjPair_cons_of _ _ _ _ (adjPair_cons_of _ _ _ _ hmem3)
    · simp only [executeStepLoop, hact] at hmem
      simp at hmem
      omega

theorem executeStep_maxOne (dflt : RetryPolicy)
    (s : TransactionStep Ctx Out Err) (ctx : Ctx)
    (hmax : (s.retryPolicy.getD dflt).maxAttempts = 1) :
    stepTr dflt ctx s = [.actionCall s.id 1] ∧
    (stepRes dflt ctx s).attempts = 1 := by
  unfold stepTr stepRes executeStep
  dsimp only
  rw [hmax]
  rcases hact : s.action ctx 1 with e | o
  · simp [executeStepLoop, hact, hmax]
  · simp [executeStepLoop, hact]

end BackoffLemmas

section StepsLoopLemmas

variable {Ctx Out Err : Type}

theorem executeStepsLoop_all_pass (dflt : RetryPolicy) (ctx : Ctx) :
    ∀ (ss : List (TransactionStep Ctx Out Err)) (i : Nat)
      (exec : SagaExecution Ctx Out Err),
      (∀ s ∈ ss, (stepRes dflt ctx s).status ≠ .FAILED) →
      executeStepsLoop dflt ctx ss i exec =
        (genTrace dflt ctx ss i exec, genExec dflt ctx ss i exec, .completed) := by
  intro ss
  induction ss with
  | nil => intro i exec _; rfl
  | cons s rest ih =>
    intro i exec H
    have hs := H s (List.mem_cons_self s rest)
    simp only [executeStepsLoop, executeStep_idx, genTrace, genExec]
    rw [if_neg hs]
    rw [ih (i + 1) _ (fun t ht => H t (List.mem_cons_of_mem s ht))]

theorem executeStepsLoop_first_fail (dflt : RetryPolicy) (ctx : Ctx)
    (sk : TransactionStep Ctx Out Err)
    (hk : (stepRes dflt ctx sk).status = .FAILED) :
    ∀ (pre post : List (TransactionStep Ctx Out Err)) (i : Nat)
      (exec : SagaExecution Ctx Out Err),
      (∀ s ∈ pre, (stepRes dflt ctx s).status ≠ .FAILED) →
      executeStepsLoop dflt ctx (pre ++ sk :: post) i exec =
        (genTrace dflt ctx pre i exec ++ stepTr dflt ctx sk,
          { genExec dflt ctx pre i exec with
            currentStep := some (i + pre.length),
            stepResults := (genExec dflt ctx pre i exec).stepResults ++
              [stepRes dflt ctx sk] },
          .failed (stepRes dflt ctx sk).error) := by
  intro pre
  induction pre with
  | nil =>
    intro post i exec _
    simp only [List.nil_append, executeStepsLoop, executeStep_idx,
      genTrace, genExec, List.length_nil, Nat.add_zero]
    rw [if_pos hk]
  | cons s rest ih =>
    intro post i exec H
    have hs := H s (List.mem_cons_self s rest)
    simp only [List.cons_append, executeStepsLoop, executeStep_idx,
      genTrace, genExec, List.append_eq]
    rw [if_neg hs]
    rw [ih post (i + 1) _ (fun t ht => H t (List.mem_cons_of_mem s ht))]
    have harith : i + 1 + rest.length = i + (rest.length + 1) := by omega
    simp [List.append_assoc, harith]

theorem genExec_stepResults (dflt : RetryPolicy) (ctx : Ctx) :
    ∀ (ss : List (TransactionStep Ctx Out Err)) (i : Nat)
      (exec : SagaExecution Ctx Out Err),
      (genExec dflt ctx ss i exec).stepResults =
        exec.stepResults ++ ss.map (stepRes dflt ctx) := by
  intro ss
  induction ss with
  | nil => intro i exec; simp [genExec]
  | cons s rest ih =>
    intro i exec
    simp [genExec, ih, List.append_assoc]

theorem genExec_status (dflt : RetryPolicy) (ctx : Ctx) :
    ∀ (ss : List (TransactionStep Ctx Out Err)) (i : Nat)
      (exec : SagaExecution Ctx Out Err),
      (genExec dflt ctx ss i exec).status = exec.status := by
  intro ss
  induction ss with
  | nil => intro i exec; rfl
  | cons s rest ih => intro i exec; simp [genExec, ih]

theorem genExec_context (dflt : RetryPolicy) (ctx : Ctx) :
    ∀ (ss : List (TransactionStep Ctx Out Err)) (i : Nat)
      (exec : SagaExecution Ctx Out Err),
      (genExec dflt ctx ss i exec).context = exec.context := by
  intro ss
  induction ss with
  | nil => intro i exec; rfl
  | cons s rest ih => intro i exec; simp [genExec, ih]

theorem genExec_currentStep (dflt : RetryPolicy) (ctx : Ctx) :
    ∀ (ss : List (TransactionStep Ctx Out Err)) (i : Nat)
      (exec : SagaExecution Ctx Out Err), ss ≠ [] →
      (genExec dflt ctx ss i exec).currentStep = some (i + ss.length - 1) := by
  intro ss
  induction ss with
  | nil => intro i exec h; exact absurd rfl h
  | cons s rest ih =>
    intro i exec _
    match rest with
    | [] => simp [genExec]
    | t :: ts =>
      rw [genExec, ih (i + 1) _ (List.cons_ne_nil t ts)]
      simp only [List.length_cons]
      congr 1
      omega

end StepsLoopLemmas

section PersistLemmas

variable {Ctx Out Err : Type}

theorem persistedProj_append (l1 l2 : List (TraceEvent Ctx Out Err)) :
    persistedProj (l1 ++ l2) = persistedProj l1 ++ persistedProj l2 :=
  List.filterMap_append l1 l2 _

theorem persistedProj_stepTr (dflt : RetryPolicy) (ctx : Ctx)
    (s : TransactionStep Ctx Out Err) :
    persistedProj (stepTr dflt ctx s) = [] := by
  rw [persistedProj, List.filterMap_eq_nil_iff]
  intro ev hev
  rcases executeStepLoop_events _ s ctx 1 _ _ ev hev with ⟨n, rfl⟩ | ⟨d, rfl⟩ <;> rfl

theorem persistedProj_genTrace (dflt : RetryPolicy) (ctx : Ctx) :
    ∀ (ss : List (TransactionStep Ctx Out Err)) (i : Nat)
      (exec : SagaExecution Ctx Out Err),
      persistedProj (genTrace dflt ctx ss i exec) =
        (List.range ss.length).map
          (fun j => (exec.status, exec.stepResults.length + (j + 1), some (i + j))) := by
  intro ss
  induction ss with
  | nil => intro i exec; rfl
  | cons s rest ih =>
    intro i exec
    rw [genTrace]
    rw [persistedProj_append, persistedProj_stepTr]
    have hcons : persistedProj
        (TraceEvent.update
          { exec with
            currentStep := some i,
            stepResults := exec.stepResults ++ [stepRes dflt ctx s] } ::
          genTrace dflt ctx rest (i + 1)
            { exec with
              currentStep := some i,
              stepResults := exec.stepResults ++ [stepRes dflt ctx s] }) =
        (exec.status, exec.stepResults.length + 1, some i) ::
          persistedProj (genTrace dflt ctx rest (i + 1)
            { exec with
              currentStep := some i,
              stepResults := exec.stepResults ++ [stepRes dflt ctx s] }) := by
      simp [persistedProj]
    rw [hcons, ih]
    rw [List.length_cons, List.range_succ_eq_map, List.map_cons, List.map_map]
    all_goals simp
    all_goals intro a ha
    all_goals omega

theorem genTrace_events (dflt : RetryPolicy) (ctx : Ctx) :
    ∀ (ss : List (TransactionStep Ctx Out Err)) (i : Nat)
      (exec : SagaExecution Ctx Out Err),
      ∀ ev ∈ genTrace dflt ctx ss i exec,
        (∃ e, ev = .update e) ∨ ∃ s ∈ ss, ev ∈ stepTr dflt ctx s := by
  intro ss
  induction ss with
  | nil => intro i exec ev hev; simp [genTrace] at hev
  | cons s rest ih =>
    intro i exec ev hev
    rw [genTrace] at hev
    rw [List.mem_append, List.mem_cons] at hev
    rcases hev with h | h | h
    · exact Or.inr ⟨s, List.mem_cons_self s rest, h⟩
    · exact Or.inl ⟨_, h⟩
    · rcases ih (i + 1) _ ev h with he | ⟨t, ht, hm⟩
      · exact Or.inl he
      · exact Or.inr ⟨t, List.mem_cons_of_mem s ht, hm⟩

end PersistLemmas

section CompensateLemmas

variable {Ctx Out Err : Type}

theorem compSweepOne_none (steps : List (TransactionStep Ctx Out Err))
    (rs : List (StepResult Ctx Out Err)) (j : Nat)
    (h1 : rs[j]? = none) :
    compSweepOne steps rs j = ([], rs) := by
  simp [compSweepOne, h1]

theorem compSweepOne_noStep (steps : List (TransactionStep Ctx Out Err))
    (rs : List (StepResult Ctx Out Err)) (j : Nat) (sr : StepResult Ctx Out Err)
    (h1 : rs[j]? = some sr)
    (h2 : steps.find? (fun s => s.id == sr.stepId) = none) :
    compSweepOne steps rs j = ([], rs) := by
  simp [compSweepOne, h1, h2]

theorem compSweepOne_noComp (steps : List (TransactionStep Ctx Out Err))
    (rs : List (StepResult Ctx Out Err)) (j : Nat) (sr : StepResult Ctx Out Err)
    (step : TransactionStep Ctx Out Err)
    (h1 : rs[j]? = some sr)
    (h2 : steps.find? (fun s => s.id == sr.stepId) = some step)
    (h3 : step.compensation = none) :
    compSweepOne steps rs j = ([], rs) := by
  simp [compSweepOne, h1, h2, h3]

theorem compSweepOne_compError (steps : List (TransactionStep Ctx Out Err))
    (rs : List (StepResult Ctx Out Err)) (j : Nat) (sr : StepResult Ctx Out Err)
    (step : TransactionStep Ctx Out Err)
    (comp : Ctx → Option Out → Except Err Unit) (e : Err)
    (h1 : rs[j]? = some sr)
    (h2 : steps.find? (fun s => s.id == sr.stepId) = some step)
    (h3 : step.compensation = some comp)
    (h4 : comp sr.input sr.output = .error e) :
    compSweepOne steps rs j =
      ([.compCall sr.stepId sr.input sr.output], rs) := by
  simp [compSweepOne, h1, h2, h3, h4]

theorem compSweepOne_compOk (steps : List (TransactionStep Ctx Out Err))
    (rs : List (StepResult Ctx Out Err)) (j : Nat) (sr : StepResult Ctx Out Err)
    (step : TransactionStep Ctx Out Err)
    (comp : Ctx → Option Out → Except Err Unit) (u : Unit)
    (h1 : rs[j]? = some sr)
    (h2 : steps.find? (fun s => s.id == sr.stepId) = some step)
    (h3 : step.compensation = some comp)
    (h4 : comp sr.input sr.output = .ok u) :
    compSweepOne steps rs j =
      ([.compCall sr.stepId sr.input sr.output],
        rs.set j { sr with status := .COMPENSATED }) := by
  simp [compSweepOne, h1, h2, h3, h4]

theorem compSweepOne_cases (steps : List (TransactionStep Ctx Out Err))
    (rs : List (StepResult Ctx Out Err)) (j : Nat) :
    compSweepOne steps rs j = ([], rs) ∨
    (∃ sr, rs[j]? = some sr ∧
      compSweepOne steps rs j = ([.compCall sr.stepId sr.input sr.output], rs)) ∨
    (∃ sr, rs[j]? = some sr ∧
      compSweepOne steps rs j = ([.compCall sr.stepId sr.input sr.output],
        rs.set j { sr with status := .COMPENSATED })) := by
  rcases h1 : rs[j]? with _ | sr
  · exact Or.inl (compSweepOne_none steps rs j h1)
  · rcases h2 : steps.find? (fun s => s.id == sr.stepId) with _ | step
    · exact Or.inl (compSweepOne_noStep steps rs j sr h1 h2)
    · rcases h3 : step.compensation with _ | comp
      · exact Or.inl (compSweepOne_noComp steps rs j sr step h1 h2 h3)
      · rcases h4 : comp sr.input sr.output with e | u
        · exact Or.inr (Or.inl ⟨sr, rfl,
            compSweepOne_compError steps rs j sr step comp e h1 h2 h3 h4⟩)
        · exact Or.inr (Or.inr ⟨sr, rfl,
            compSweepOne_compOk steps rs j sr step comp u h1 h2 h3 h4⟩)

theorem compSweepOne_length (steps : List (TransactionStep Ctx Out Err))
    (rs : List (StepResult Ctx Out Err)) (j : Nat) :
    (compSweepOne steps rs j).2.length = rs.length := by
  rcases compSweepOne_cases steps rs j with h | ⟨sr, _, h⟩ | ⟨sr, _, h⟩ <;> rw [h]
  exact List.length_set rs j _

theorem compSweepOne_get?_ne (steps : List (TransactionStep Ctx Out Err))
    (rs : List (StepResult Ctx Out Err)) (j q : Nat) (hq : j ≠ q) :
    (compSweepOne steps rs j).2[q]? = rs[q]? := by
  rcases compSweepOne_cases steps rs j with h | ⟨sr, _, h⟩ | ⟨sr, _, h⟩ <;> rw [h]
  exact List.getElem?_set_ne hq

theorem compSweep_length (steps : List (TransactionStep Ctx Out Err)) :
    ∀ (idxs : List Nat) (rs : List (StepResult Ctx Out Err)),
      (compSweep steps rs idxs).2.length = rs.length := by
  intro idxs
  induction idxs with
  | nil => intro rs; rfl
  | cons j rest ih =>
    intro rs
    simp only [compSweep]
    rw [ih, compSweepOne_length]

theorem compSweep_get?_not_mem (steps : List (TransactionStep Ctx Out Err)) :
    ∀ (idxs : List Nat) (rs : List (StepResult Ctx Out Err)) (p : Nat),
      p ∉ idxs →
      (compSweep steps rs idxs).2[p]? = rs[p]? := by
  intro idxs
  induction idxs with
  | nil => intro rs p _; rfl
  | cons j rest ih =>
    intro rs p hp
    simp only [compSweep]
    rw [ih _ p (fun h => hp (List.mem_cons_of_mem j h)),
      compSweepOne_get?_ne steps rs j p (fun h => hp (h ▸ List.mem_cons_self j rest))]

theorem compSweepOne_trace_congr (steps : List (TransactionStep Ctx Out Err))
    (X rs : List (StepResult Ctx Out Err)) (j : Nat)
    (h : X[j]? = rs[j]?) :
    (compSweepOne steps X j).1 = (compSweepOne steps rs j).1 := by
  rcases h1 : rs[j]? with _ | sr
  · rw [compSweepOne_none steps X j (h.trans h1),
      compSweepOne_none steps rs j h1]
  · rcases h2 : steps.find? (fun s => s.id == sr.stepId) with _ | step
    · rw [compSweepOne_noStep steps X j sr (h.trans h1) h2,
        compSweepOne_noStep steps rs j sr h1 h2]
    · rcases h3 : step.compensation with _ | comp
      · rw [compSweepOne_noComp steps X j sr step (h.trans h1) h2 h3,
          compSweepOne_noComp steps rs j sr step h1 h2 h3]
      · rcases h4 : comp sr.input sr.output with e | u
        · rw [compSweepOne_compError steps X j sr step comp e (h.trans h1) h2 h3 h4,
            compSweepOne_compError steps rs j sr step comp e h1 h2 h3 h4]
        · rw [compSweepOne_compOk steps X j sr step comp u (h.trans h1) h2 h3 h4,
            compSweepOne_compOk steps rs j sr step comp u h1 h2 h3 h4]

theorem compSweepOne_get?_congr (steps : List (TransactionStep Ctx Out Err))
    (X rs : List (StepResult Ctx Out Err)) (p : Nat)
    (h : X[p]? = rs[p]?) :
    (compSweepOne steps X p).2[p]? = (compSweepOne steps rs p).2[p]? := by
  rcases h1 : rs[p]? with _ | sr
  · rw [compSweepOne_none steps X p (h.trans h1),
      compSweepOne_none steps rs p h1]
    exact h
  · rcases h2 : steps.find? (fun s => s.id == sr.stepId) with _ | step
    · rw [compSweepOne_noStep steps X p sr (h.trans h1) h2,
        compSweepOne_noStep steps rs p sr h1 h2]
      exact h
    · rcases h3 : step.compensation with _ | comp
      · rw [compSweepOne_noComp steps X p sr step (h.trans h1) h2 h3,
          compSweepOne_noComp steps rs p sr step h1 h2 h3]
        exact h
      · rcases h4 : comp sr.input sr.output with e | u
        · rw [compSweepOne_compError steps X p sr step comp e (h.trans h1) h2 h3 h4,
            compSweepOne_compError steps rs p sr step comp e h1 h2 h3 h4]
          exact h
        · rw [compSweepOne_compOk steps X p sr step comp u (h.trans h1) h2 h3 h4,
            compSweepOne_compOk steps rs p sr step comp u h1 h2 h3 h4]
          obtain ⟨hX, _⟩ := List.getElem?_eq_some.mp (h.trans h1)
          obtain ⟨hr, _⟩ := List.getElem?_eq_some.mp h1
          rw [List.getElem?_set_eq_of_lt _ hX, List.getElem?_set_eq_of_lt _ hr]

theorem flatMap_congr_local {α β : Type} (l : List α) (f g : α → List β)
    (h : ∀ a ∈ l, f a = g a) : l.flatMap f = l.flatMap g := by
  induction l with
  | nil => rfl
  | cons a rest ih =>
    rw [List.flatMap_cons, List.flatMap_cons,
      h a (List.mem_cons_self a rest),
      ih (fun b hb => h b (List.mem_cons_of_mem a hb))]

theorem compSweep_trace (steps : List (TransactionStep Ctx Out Err)) :
    ∀ (idxs : List Nat) (rs : List (StepResult Ctx Out Err)), idxs.Nodup →
      (compSweep steps rs idxs).1 =
        idxs.flatMap (fun j => (compSweepOne steps rs j).1) := by
  intro idxs
  induction idxs with
  | nil => intro rs _; rfl
  | cons j rest ih =>
    intro rs hnd
    simp only [compSweep, List.flatMap_cons]
    rw [ih _ (List.nodup_cons.mp hnd).2]
    congr 1
    refine flatMap_congr_local _ _ _ fun q hq => ?_
    refine compSweepOne_trace_congr steps _ rs q ?_
    refine compSweepOne_get?_ne steps rs j q ?_
    intro hjq
    exact (List.nodup_cons.mp hnd).1 (hjq ▸ hq)

theorem compSweep_get?_mem (steps : List (TransactionStep Ctx Out Err)) :
    ∀ (idxs : List Nat) (rs : List (StepResult Ctx Out Err)) (p : Nat),
      idxs.Nodup → p ∈ idxs →
      (compSweep steps rs idxs).2[p]? = (compSweepOne steps rs p).2[p]? := by
  intro idxs
  induction idxs with
  | nil => intro rs p _ hp; simp at hp
  | cons j rest ih =>
    intro rs p hnd hp
    simp only [compSweep]
    rcases List.mem_cons.mp hp with rfl | hrest
    · rw [compSweep_get?_not_mem steps rest _ p (List.nodup_cons.mp hnd).1]
    · rw [ih _ p (List.nodup_cons.mp hnd).2 hrest]
      refine compSweepOne_get?_congr steps _ rs p ?_
      refine compSweepOne_get?_ne steps rs j p ?_
      intro hjp
      exact (List.nodup_cons.mp hnd).1 (hjp ▸ hrest)

theorem compSweep_events (steps : List (TransactionStep Ctx Out Err)) :
    ∀ (idxs : List Nat) (rs : List (StepResult Ctx Out Err)),
      ∀ ev ∈ (compSweep steps rs idxs).1,
        ∃ id inp out, ev = TraceEvent.compCall id inp out := by
  intro idxs
  induction idxs with
  | nil => intro rs ev hev; simp [compSweep] at hev
  | cons j rest ih =>
    intro rs ev hev
    simp only [compSweep, List.mem_append] at hev
    rcases hev with hev | hev
    · rcases compSweepOne_cases steps rs j with h | ⟨sr, _, h⟩ | ⟨sr, _, h⟩ <;>
        rw [h] at hev <;> simp at hev <;> exact ⟨_, _, _, hev⟩
    · exact ih _ ev hev

end CompensateLemmas

section OrchestratorLemmas

variable {Ctx Out Err : Type}

theorem executeStepLoop_status (p : RetryPolicy)
    (s : TransactionStep Ctx Out Err) (c : Ctx) :
    ∀ (f a : Nat) (sr : StepResult Ctx Out Err),
      (executeStepLoop p s c a f sr).2.status = .SUCCESS ∨
      (executeStepLoop p s c a f sr).2.status = .FAILED := by
  intro f
  induction f with
  | zero => intro a sr; exact Or.inr rfl
  | succ f ih =>
    intro a sr
    simp only [executeStepLoop]
    rcases hact : s.action c a with e | o
    · dsimp only
      by_cases hlast : a = p.maxAttempts
      · rw [if_pos hlast]
        exact Or.inr rfl
      · rw [if_neg hlast]
        exact ih (a + 1) _
    · exact Or.inl rfl

theorem stepRes_status (dflt : RetryPolicy) (ctx : Ctx)
    (s : TransactionStep Ctx Out Err) :
    (stepRes dflt ctx s).status = .SUCCESS ∨
      (stepRes dflt ctx s).status = .FAILED :=
  executeStepLoop_status (s.retryPolicy.getD dflt) s ctx
    (s.retryPolicy.getD dflt).maxAttempts 1
    { stepId := s.id, stepName := s.name, status := .SUCCESS,
      input := ctx, output := none, error := none, attempts := 0 }

theorem stepRes_not_failed_iff (dflt : RetryPolicy) (ctx : Ctx)
    (s : TransactionStep Ctx Out Err) :
    (stepRes dflt ctx s).status ≠ .FAILED ↔
      (stepRes dflt ctx s).status = .SUCCESS := by
  rcases stepRes_status dflt ctx s with h | h
  · exact ⟨fun _ => h, fun _ hc => by rw [h] at hc; exact StepStatus.noConfusion hc⟩
  · constructor
    · intro hne
      exact absurd h hne
    · intro hs
      exact StepStatus.noConfusion (hs.symm.trans h)

theorem find?_id_of_nodup :
    ∀ (ss : List (TransactionStep Ctx Out Err)),
      (ss.map (fun s => s.id)).Nodup →
      ∀ (j : Nat) (s : TransactionStep Ctx Out Err), ss[j]? = some s →
      ss.find? (fun t => t.id == s.id) = some s := by
  intro ss
  induction ss with
  | nil => intro _ j s hj; simp at hj
  | cons a rest ih =>
    intro hnd j s hj
    match j with
    | 0 =>
      simp only [List.getElem?_cons_zero, Option.some.injEq] at hj
      subst hj
      simp [List.find?]
    | j' + 1 =>
      rw [List.getElem?_cons_succ] at hj
      have hmem : s ∈ rest := List.getElem?_mem hj
      rw [List.map_cons, List.nodup_cons] at hnd
      have hne : (a.id == s.id) = false := by
        rw [beq_eq_false_iff_ne]
        intro he
        exact hnd.1 (he ▸ List.mem_map_of_mem (fun t => t.id) hmem)
      rw [List.find?_cons_of_neg _ (by simp [hne])]
      exact ih hnd.2 j' s hj

theorem compensate_exec_status (defn : SagaDefinition Ctx Out Err)
    (exec : SagaExecution Ctx Out Err) (err : Option Err) :
    (compensate defn exec err).2.1.status = .COMPENSATED := rfl

theorem compensate_exec_length (defn : SagaDefinition Ctx Out Err)
    (exec : SagaExecution Ctx Out Err) (err : Option Err) :
    (compensate defn exec err).2.1.stepResults.length =
      exec.stepResults.length := by
  simp only [compensate]
  exact compSweep_length _ _ _

theorem compensate_exec_context (defn : SagaDefinition Ctx Out Err)
    (exec : SagaExecution Ctx Out Err) (err : Option Err) :
    (compensate defn exec err).2.1.context = exec.context := rfl

theorem compensate_exec_currentStep (defn : SagaDefinition Ctx Out Err)
    (exec : SagaExecution Ctx Out Err) (err : Option Err) :
    (compensate defn exec err).2.1.currentStep = exec.currentStep := rfl

theorem compensate_hookErr_none (defn : SagaDefinition Ctx Out Err)
    (exec : SagaExecution Ctx Out Err) (err : Option Err)
    (hook : onFailureOk defn exec.context) :
    (compensate defn exec err).2.2 = none := by
  simp only [compensate]
  rcases hf : defn.onFailure with _ | f
  · rfl
  · obtain ⟨u, hu⟩ := hook f hf err
    simp [hu]

theorem executeStepsLoop_context (dflt : RetryPolicy) (c : Ctx) :
    ∀ (ss : List (TransactionStep Ctx Out Err)) (i : Nat)
      (exec : SagaExecution Ctx Out Err),
      (executeStepsLoop dflt c ss i exec).2.1.context = exec.context := by
  intro ss
  induction ss with
  | nil => intro i exec; rfl
  | cons s rest ih =>
    intro i exec
    simp only [executeStepsLoop]
    by_cases h : (executeStep dflt s c i).2.status = .FAILED
    · rw [if_pos h]
    · rw [if_neg h]
      exact ih (i + 1) _

theorem compCallIds_append (l1 l2 : List (TraceEvent Ctx Out Err)) :
    compCallIds (l1 ++ l2) = compCallIds l1 ++ compCallIds l2 :=
  List.filterMap_append l1 l2 _

theorem compCallIds_stepTr (dflt : RetryPolicy) (ctx : Ctx)
    (s : TransactionStep Ctx Out Err) :
    compCallIds (stepTr dflt ctx s) = [] := by
  rw [compCallIds, List.filterMap_eq_nil_iff]
  intro ev hev
  rcases executeStepLoop_events _ s ctx 1 _ _ ev hev with ⟨n, rfl⟩ | ⟨d, rfl⟩ <;> rfl

theorem compCallIds_genTrace (dflt : RetryPolicy) (ctx : Ctx)
    (ss : List (TransactionStep Ctx Out Err)) (i : Nat)
    (exec : SagaExecution Ctx Out Err) :
    compCallIds (genTrace dflt ctx ss i exec) = [] := by
  rw [compCallIds, List.filterMap_eq_nil_iff]
  intro ev hev
  rcases genTrace_events dflt ctx ss i exec ev hev with ⟨e, rfl⟩ | ⟨s, _, hm⟩
  · rfl
  · rcases executeStepLoop_events _ s ctx 1 _ _ ev hm with ⟨n, rfl⟩ | ⟨d, rfl⟩ <;> rfl

theorem executeSaga_completed_ok (dflt : RetryPolicy)
    (defn : SagaDefinition Ctx Out Err) (ctx : Ctx)
    (hout : (executeSteps dflt defn (initExec defn ctx)).2.2 = .completed)
    (hook : onSuccessOk defn ctx) :
    executeSaga dflt defn ctx =
      (.save (initExec defn ctx) ::
        (executeSteps dflt defn (initExec defn ctx)).1 ++
        [.update { (executeSteps dflt defn (initExec defn ctx)).2.1 with
          status := .COMPLETED }],
       { (executeSteps dflt defn (initExec defn ctx)).2.1 with
         status := .COMPLETED },
       none) := by
  simp only [executeSaga]
  rw [hout]
  dsimp only
  rcases hf : defn.onSuccess with _ | f
  · rfl
  · dsimp only
    obtain ⟨u, hu⟩ := hook f hf
    rw [hu]

theorem executeSaga_completed_throw (dflt : RetryPolicy)
    (defn : SagaDefinition Ctx Out Err) (ctx : Ctx)
    (f : Ctx → Except Err Unit) (e : Err)
    (hout : (executeSteps dflt defn (initExec defn ctx)).2.2 = .completed)
    (hf : defn.onSuccess = some f) (he : f ctx = .error e) :
    executeSaga dflt defn ctx =
      (.save (initExec defn ctx) ::
        (executeSteps dflt defn (initExec defn ctx)).1 ++
        [.update { (executeSteps dflt defn (initExec defn ctx)).2.1 with
          status := .FAILED, error := some e }],
       { (executeSteps dflt defn (initExec defn ctx)).2.1 with
         status := .FAILED, error := some e },
       some e) := by
  simp only [executeSaga]
  rw [hout]
  dsimp only
  rw [hf]
  dsimp only
  rw [he]

theorem executeSaga_failed_ok (dflt : RetryPolicy)
    (defn : SagaDefinition Ctx Out Err) (ctx : Ctx) (err : Option Err)
    (hout : (executeSteps dflt defn (initExec defn ctx)).2.2 = .failed err)
    (hc : (compensate defn (executeSteps dflt defn (initExec defn ctx)).2.1
      err).2.2 = none) :
    executeSaga dflt defn ctx =
      (.save (initExec defn ctx) ::
        (executeSteps dflt defn (initExec defn ctx)).1 ++
        (compensate defn (executeSteps dflt defn (initExec defn ctx)).2.1
          err).1 ++
        [.update (compensate defn
          (executeSteps dflt defn (initExec defn ctx)).2.1 err).2.1],
       (compensate defn (executeSteps dflt defn (initExec defn ctx)).2.1
         err).2.1,
       none) := by
  simp only [executeSaga]
  rw [hout]
  dsimp only
  rw [hc]

theorem executeSaga_failed_throw (dflt : RetryPolicy)
    (defn : SagaDefinition Ctx Out Err) (ctx : Ctx) (err : Option Err)
    (e : Err)
    (hout : (executeSteps dflt defn (initExec defn ctx)).2.2 = .failed err)
    (hc : (compensate defn (executeSteps dflt defn (initExec defn ctx)).2.1
      err).2.2 = some e) :
    executeSaga dflt defn ctx =
      (.save (initExec defn ctx) ::
        (executeSteps dflt defn (initExec defn ctx)).1 ++
        (compensate defn (executeSteps dflt defn (initExec defn ctx)).2.1
          err).1 ++
        [.update { (compensate defn
          (executeSteps dflt defn (initExec defn ctx)).2.1 err).2.1 with
          status := .FAILED, error := some e }],
       { (compensate defn (executeSteps dflt defn (initExec defn ctx)).2.1
         err).2.1 with status := .FAILED, error := some e },
       some e) := by
  simp only [executeSaga]
  rw [hout]
  dsimp only
  rw [hc]

theorem executeSteps_all_pass_init (dflt : RetryPolicy)
    (defn : SagaDefinition Ctx Out Err) (ctx : Ctx)
    (Hall : ∀ s ∈ defn.steps, (stepRes dflt ctx s).status ≠ .FAILED) :
    executeSteps dflt defn (initExec defn ctx) =
      (.update (runningExec defn ctx) ::
        genTrace dflt ctx defn.steps 0 (runningExec defn ctx),
       genExec dflt ctx defn.steps 0 (runningExec defn ctx),
       .completed) := by
  simp only [executeSteps]
  have hctx : ({ initExec defn ctx with status := SagaStatus.RUNNING } :
      SagaExecution Ctx Out Err).context = ctx := rfl
  rw [hctx, executeStepsLoop_all_pass dflt ctx defn.steps 0 _ Hall]
  rfl

theorem executeSteps_first_fail_init (dflt : RetryPolicy)
    (defn : SagaDefinition Ctx Out Err) (ctx : Ctx) (k : Nat)
    (sk : TransactionStep Ctx Out Err)
    (hk : defn.steps[k]? = some sk)
    (hkF : (stepRes dflt ctx sk).status = .FAILED)
    (hpre : ∀ j s, j < k → defn.steps[j]? = some s →
      (stepRes dflt ctx s).status = .SUCCESS) :
    executeSteps dflt defn (initExec defn ctx) =
      (.update (runningExec defn ctx) ::
        (genTrace dflt ctx (defn.steps.take k) 0 (runningExec defn ctx) ++
          stepTr dflt ctx sk),
       failMidExec dflt defn ctx k sk,
       .failed (stepRes dflt ctx sk).error) := by
  obtain ⟨hlen, hget⟩ := List.getElem?_eq_some.mp hk
  have hsplit : defn.steps =
      defn.steps.take k ++ sk :: defn.steps.drop (k + 1) := by
    have h1 := List.take_append_drop k defn.steps
    rw [List.drop_eq_getElem_cons hlen, hget] at h1
    exact h1.symm
  have hpre' : ∀ s ∈ defn.steps.take k,
      (stepRes dflt ctx s).status ≠ .FAILED := by
    intro s hs
    obtain ⟨j, hj⟩ := List.mem_iff_getElem?.mp hs
    have hjk : j < k := by
      by_contra hge
      rw [List.getElem?_take_eq_none (by omega)] at hj
      exact Option.noConfusion hj
    rw [List.getElem?_take_of_lt hjk] at hj
    rw [stepRes_not_failed_iff]
    exact hpre j s hjk hj
  simp only [executeSteps]
  have hctx : ({ initExec defn ctx with status := SagaStatus.RUNNING } :
      SagaExecution Ctx Out Err).context = ctx := rfl
  rw [hctx]
  conv_lhs => rw [hsplit]
  rw [executeStepsLoop_first_fail dflt ctx sk hkF (defn.steps.take k)
    (defn.steps.drop (k + 1)) 0 _ hpre']
  rfl

theorem reverse_of_short {β : Type} (l : List β) (h : l.length ≤ 1) :
    l.reverse = l := by
  match l with
  | [] => rfl
  | [b] => rfl
  | b :: c :: t => simp at h

theorem revRange_flatMap {α β : Type} (ss : List α) (g : Nat → List β)
    (hb : α → List β) (h1 : ∀ b, (hb b).length ≤ 1)
    (hg : ∀ j b, ss[j]? = some b → g j = hb b) :
    ∀ m, m ≤ ss.length →
      ((List.range m).reverse).flatMap g = ((ss.take m).flatMap hb).reverse := by
  intro m
  induction m with
  | zero => intro _; rfl
  | succ m ih =>
    intro hm
    obtain ⟨b, hbm⟩ : ∃ b, ss[m]? = some b := by
      rcases hx : ss[m]? with _ | b
      · rw [List.getElem?_eq_none_iff] at hx
        omega
      · exact ⟨b, rfl⟩
    rw [List.range_succ, List.reverse_append, List.take_succ, hbm]
    simp only [List.reverse_cons, List.reverse_nil, List.nil_append,
      List.flatMap_cons, List.flatMap_append, List.reverse_append,
      Option.toList_some, List.flatMap_nil, List.append_nil]
    rw [ih (by omega), hg m b hbm, reverse_of_short (hb b) (h1 b)]

theorem flatMap_if_singleton {α β : Type} (ss : List α) (p : α → Bool)
    (f : α → β) :
    ss.flatMap (fun s => if p s then [f s] else []) = (ss.filter p).map f := by
  induction ss with
  | nil => rfl
  | cons a rest ih =>
    rw [List.flatMap_cons, ih]
    by_cases hp : p a
    · rw [if_pos hp, List.filter_cons_of_pos hp, List.map_cons]
      rfl
    · rw [if_neg hp, List.filter_cons_of_neg hp]
      rfl

theorem compCallIds_flatMap (l : List Nat)
    (g : Nat → List (TraceEvent Ctx Out Err)) :
    compCallIds (l.flatMap g) = l.flatMap (fun j => compCallIds (g j)) := by
  induction l with
  | nil => rfl
  | cons j rest ih =>
    rw [List.flatMap_cons, List.flatMap_cons, compCallIds_append, ih]

theorem persistedProj_compensate (defn : SagaDefinition Ctx Out Err)
    (exec : SagaExecution Ctx Out Err) (err : Option Err) :
    persistedProj (compensate defn exec err).1 =
      [(SagaStatus.COMPENSATING, exec.stepResults.length, exec.currentStep)] := by
  simp only [compensate]
  have h1 : persistedProj (compSweep defn.steps
      ({ exec with status := SagaStatus.COMPENSATING } :
        SagaExecution Ctx Out Err).stepResults
      (((List.range ({ exec with status := SagaStatus.COMPENSATING } :
          SagaExecution Ctx Out Err).stepResults.length).filter
        (successAt ({ exec with status := SagaStatus.COMPENSATING } :
          SagaExecution Ctx Out Err).stepResults)).reverse)).1 = [] := by
    rw [persistedProj, List.filterMap_eq_nil_iff]
    intro ev hev
    obtain ⟨id, inp, out, rfl⟩ := compSweep_events defn.steps _ _ ev hev
    rfl
  rw [persistedProj, List.filterMap_cons]
  dsimp only
  rw [← persistedProj]
  rw [h1]

theorem compensate_no_actionCall (defn : SagaDefinition Ctx Out Err)
    (exec : SagaExecution Ctx Out Err) (err : Option Err) :
    ∀ id a, (TraceEvent.actionCall id a : TraceEvent Ctx Out Err) ∉
      (compensate defn exec err).1 := by
  intro id a hmem
  simp only [compensate, List.mem_cons] at hmem
  rcases hmem with h | h
  · exact TraceEvent.noConfusion h
  · obtain ⟨id2, inp, out, heq⟩ := compSweep_events defn.steps _ _ _ h
    exact TraceEvent.noConfusion heq

theorem persistedProj_cons_save (e : SagaExecution Ctx Out Err)
    (l : List (TraceEvent Ctx Out Err)) :
    persistedProj (.save e :: l) =
      (e.status, e.stepResults.length, e.currentStep) :: persistedProj l := by
  simp [persistedProj]

theorem persistedProj_cons_update (e : SagaExecution Ctx Out Err)
    (l : List (TraceEvent Ctx Out Err)) :
    persistedProj (.update e :: l) =
      (e.status, e.stepResults.length, e.currentStep) :: persistedProj l := by
  simp [persistedProj]

theorem compCallIds_cons_save (e : SagaExecution Ctx Out Err)
    (l : List (TraceEvent Ctx Out Err)) :
    compCallIds (.save e :: l) = compCallIds l := by
  simp [compCallIds]

theorem compCallIds_cons_update (e : SagaExecution Ctx Out Err)
    (l : List (TraceEvent Ctx Out Err)) :
    compCallIds (.update e :: l) = compCallIds l := by
  simp [compCallIds]

theorem compensate_results_eq (defn : SagaDefinition Ctx Out Err)
    (exec : SagaExecution Ctx Out Err) (err : Option Err) :
    (compensate defn exec err).2.1.stepResults =
      (compSweep defn.steps exec.stepResults
        (((List.range exec.stepResults.length).filter
          (successAt exec.stepResults)).reverse)).2 := rfl

theorem compensate_trace_eq (defn : SagaDefinition Ctx Out Err)
    (exec : SagaExecution Ctx Out Err) (err : Option Err) :
    (compensate defn exec err).1 =
      .update { exec with status := .COMPENSATING } ::
        (compSweep defn.steps exec.stepResults
          (((List.range exec.stepResults.length).filter
            (successAt exec.stepResults)).reverse)).1 := rfl

theorem failMidExec_results (dflt : RetryPolicy)
    (defn : SagaDefinition Ctx Out Err) (ctx : Ctx) (k : Nat)
    (sk : TransactionStep Ctx Out Err) :
    (failMidExec dflt defn ctx k sk).stepResults =
      (defn.steps.take k).map (stepRes dflt ctx) ++ [stepRes dflt ctx sk] := by
  simp only [failMidExec]
  rw [genExec_stepResults]
  rfl

theorem failMidExec_length (dflt : RetryPolicy)
    (defn : SagaDefinition Ctx Out Err) (ctx : Ctx) (k : Nat)
    (sk : TransactionStep Ctx Out Err) (hk : k ≤ defn.steps.length) :
    (failMidExec dflt defn ctx k sk).stepResults.length = k + 1 := by
  rw [failMidExec_results]
  simp [List.length_take]
  omega

theorem failMidExec_currentStep (dflt : RetryPolicy)
    (defn : SagaDefinition Ctx Out Err) (ctx : Ctx) (k : Nat)
    (sk : TransactionStep Ctx Out Err) (hk : k ≤ defn.steps.length) :
    (failMidExec dflt defn ctx k sk).currentStep = some k := by
  simp only [failMidExec]
  rw [List.length_take]
  congr 1
  omega

theorem failMidExec_context (dflt : RetryPolicy)
    (defn : SagaDefinition Ctx Out Err) (ctx : Ctx) (k : Nat)
    (sk : TransactionStep Ctx Out Err) :
    (failMidExec dflt defn ctx k sk).context = ctx := by
  have h : (failMidExec dflt defn ctx k sk).context =
      (genExec dflt ctx (defn.steps.take k) 0 (runningExec defn ctx)).context :=
    rfl
  rw [h, genExec_context]
  rfl

theorem executeSaga_trace_shape (dflt : RetryPolicy)
    (defn : SagaDefinition Ctx Out Err) (ctx : Ctx) :
    ∃ tail, (executeSaga dflt defn ctx).1 =
      .save (initExec defn ctx) :: .update (runningExec defn ctx) ::
        ((executeStepsLoop dflt ctx defn.steps 0 (runningExec defn ctx)).1 ++
          tail) := by
  rcases hout : (executeSteps dflt defn (initExec defn ctx)).2.2 with _ | err
  · rcases hf : defn.onSuccess with _ | f
    · have hook : onSuccessOk defn ctx := by
        intro g hg
        rw [hf] at hg
        exact Option.noConfusion hg
      refine ⟨[.update { (executeSteps dflt defn (initExec defn ctx)).2.1 with
        status := .COMPLETED }], ?_⟩
      rw [executeSaga_completed_ok dflt defn ctx hout hook]
      rfl
    · rcases hfc : f ctx with e | u
      · refine ⟨[.update { (executeSteps dflt defn (initExec defn ctx)).2.1 with
          status := .FAILED, error := some e }], ?_⟩
        rw [executeSaga_completed_throw dflt defn ctx f e hout hf hfc]
        rfl
      · have hook : onSuccessOk defn ctx := by
          intro g hg
          rw [hf] at hg
          exact ⟨u, (Option.some.inj hg) ▸ hfc⟩
        refine ⟨[.update { (executeSteps dflt defn (initExec defn ctx)).2.1 with
          status := .COMPLETED }], ?_⟩
        rw [executeSaga_completed_ok dflt defn ctx hout hook]
        rfl
  · rcases hc : (compensate defn
        (executeSteps dflt defn (initExec defn ctx)).2.1 err).2.2 with _ | e
    · refine ⟨(compensate defn (executeSteps dflt defn (initExec defn ctx)).2.1
        err).1 ++ [.update (compensate defn
        (executeSteps dflt defn (initExec defn ctx)).2.1 err).2.1], ?_⟩
      rw [executeSaga_failed_ok dflt defn ctx err hout hc]
      rw [List.append_assoc]
      rfl
    · refine ⟨(compensate defn (executeSteps dflt defn (initExec defn ctx)).2.1
        err).1 ++ [.update { (compensate defn
        (executeSteps dflt defn (initExec defn ctx)).2.1 err).2.1 with
        status := .FAILED, error := some e }], ?_⟩
      rw [executeSaga_failed_throw dflt defn ctx err e hout hc]
      rw [List.append_assoc]
      rfl

end OrchestratorLemmas

section LastLemma

theorem getLast?_cons_concat {α : Type} (a x : α) (l : List α) :
    (a :: (l ++ [x])).getLast? = some x := by
  rw [← List.cons_append]
  exact List.getLast?_concat _

end LastLemma

section Claims

theorem c7_topic_derivation_correct :
    (∀ s : String, getTopicForEvent s = specTopicForEvent s) ∧
    getTopicForEvent "PaymentProcessed" = "payment.processed" ∧
    getTopicForEvent "Created" = "created" :=
  ⟨getTopic_eq_spec, by decide, by decide⟩

theorem c10_getStats_hardcoded {P : Type} (l : List (OutboxEvent P)) :
    (getStats l).published = 0 ∧ (getStats l).failed = 0 ∧
    (getStats l).pending = l.length :=
  ⟨rfl, rfl, rfl⟩

theorem c6_counterexample :
    OutboxAction.markFailed "e1" "max retries exceeded" ∉
      (processEvent 3 brokerOkW evCapW).1 ∧
    (processEvent 3 brokerOkW evCapW).1 =
      [OutboxAction.markFailed "e1" "Max retries exceeded"] := by
  refine ⟨?_, rfl⟩
  decide

theorem c6_outbox_retry_cap_amended {P : Type} (maxRetries : Nat)
    (broker : String → EventEnvelope P → Except String Unit)
    (event : OutboxEvent P) :
    (maxRetries ≤ event.retryCount →
      processEvent maxRetries broker event =
        ([.markFailed event.id "Max retries exceeded"], event) ∧
      ∀ t env, OutboxAction.publishCall t env ∉
        (processEvent maxRetries broker event).1) ∧
    (event.retryCount < maxRetries →
      ∀ msg, broker (getTopicForEvent event.eventType)
        (outboxEnvelope event) = .error msg →
      processEvent maxRetries broker event =
        ([.publishCall (getTopicForEvent event.eventType)
            (outboxEnvelope event),
          .markFailed event.id msg],
         { event with retryCount := event.retryCount + 1 })) := by
  constructor
  · intro hge
    have heq : processEvent maxRetries broker event =
        ([.markFailed event.id "Max retries exceeded"], event) := by
      rw [processEvent, if_pos hge]
    refine ⟨heq, ?_⟩
    intro t env hmem
    rw [heq] at hmem
    simp at hmem
  · intro hlt msg hmsg
    rw [processEvent, if_neg (by omega)]
    dsimp only
    rw [hmsg]

theorem c6_outbox_retry_cap_witness :
    processEvent 3 brokerOkW evCapW =
      ([.markFailed "e1" "Max retries exceeded"], evCapW) ∧
    processEvent 3 brokerFailW evFreshW =
      ([.publishCall "created" (outboxEnvelope evFreshW),
        .markFailed "e2" "publish down"],
       { evFreshW with retryCount := 1 }) := by
  constructor
  · exact ((c6_outbox_retry_cap_amended 3 brokerOkW evCapW).1 (by decide)).1
  · exact (c6_outbox_retry_cap_amended 3 brokerFailW evFreshW).2 (by decide)
      "publish down" rfl

theorem c4_backoff_formula {Ctx Out Err : Type} (dflt : RetryPolicy)
    (s : TransactionStep Ctx Out Err) (ctx : Ctx) (i : Nat) :
    (∀ d n, adjPair (executeStep dflt s ctx i).1 (.sleep d)
        (.actionCall s.id n) →
      d = (s.retryPolicy.getD dflt).backoffMs *
        (s.retryPolicy.getD dflt).backoffMultiplier ^ (n - 2)) ∧
    (∀ n, 2 ≤ n →
      (TraceEvent.actionCall s.id n : TraceEvent Ctx Out Err) ∈
        (executeStep dflt s ctx i).1 →
      adjPair (executeStep dflt s ctx i).1
        (.sleep ((s.retryPolicy.getD dflt).backoffMs *
          (s.retryPolicy.getD dflt).backoffMultiplier ^ (n - 2)))
        (.actionCall s.id n)) ∧
    ((s.retryPolicy.getD dflt).maxAttempts = 1 →
      (executeStep dflt s ctx i).1 = [.actionCall s.id 1] ∧
      (executeStep dflt s ctx i).2.attempts = 1) := by
  refine ⟨?_, ?_, ?_⟩
  · intro d n hadj
    exact executeStepLoop_adj_sound (s.retryPolicy.getD dflt) s ctx
      (s.retryPolicy.getD dflt).maxAttempts 1 _ d n (le_refl 1) hadj
  · intro n h2 hmem
    exact executeStepLoop_adj_exists (s.retryPolicy.getD dflt) s ctx
      (s.retryPolicy.getD dflt).maxAttempts 1 _ n (by omega) hmem
  · intro hmax
    exact executeStep_maxOne dflt s ctx hmax

theorem c4_backoff_witness :
    (2000 : Nat) = dfltW.backoffMs * dfltW.backoffMultiplier ^ (3 - 2) ∧
    adjPair (executeStep dfltW stepFailW 0 1).1
      (.sleep (dfltW.backoffMs * dfltW.backoffMultiplier ^ (2 - 2)))
      (.actionCall "s2" 2) ∧
    (executeStep dfltW stepOneW 0 0).1 = [.actionCall "sone" 1] ∧
    (executeStep dfltW stepOneW 0 0).2.attempts = 1 := by
  refine ⟨?_, ?_, ?_, ?_⟩
  · exact ((c4_backoff_formula dfltW stepFailW 0 1).1 2000 3
      ⟨[.actionCall "s2" 1, .sleep 1000, .actionCall "s2" 2], [], rfl⟩).symm
  · exact (c4_backoff_formula dfltW stepFailW 0 1).2.1 2 (by omega) (by decide)
  · exact ((c4_backoff_formula dfltW stepOneW 0 0).2.2 rfl).1
  · exact ((c4_backoff_formula dfltW stepOneW 0 0).2.2 rfl).2

theorem c2_all_steps_first_attempt {Ctx Out Err : Type} (dflt : RetryPolicy)
    (defn : SagaDefinition Ctx Out Err) (ctx : Ctx)
    (hfirst : ∀ s ∈ defn.steps, ∃ o, s.action ctx 1 = .ok o)
    (hbudget : ∀ s ∈ defn.steps, 1 ≤ (s.retryPolicy.getD dflt).maxAttempts)
    (hhook : onSuccessOk defn ctx) :
    (executeSaga dflt defn ctx).2.2 = none ∧
    (executeSaga dflt defn ctx).2.1.status = .COMPLETED ∧
    (executeSaga dflt defn ctx).2.1.stepResults.length = defn.steps.length ∧
    ∀ r ∈ (executeSaga dflt defn ctx).2.1.stepResults,
      r.status = .SUCCESS ∧ r.attempts = 1 := by
  have hres : ∀ s ∈ defn.steps, (stepRes dflt ctx s).status = .SUCCESS ∧
      (stepRes dflt ctx s).attempts = 1 := by
    intro s hs
    obtain ⟨o, ho⟩ := hfirst s hs
    rw [(executeStep_first_success dflt s ctx o ho (hbudget s hs)).2]
    exact ⟨rfl, rfl⟩
  have hall : ∀ s ∈ defn.steps, (stepRes dflt ctx s).status ≠ .FAILED := by
    intro s hs hc
    rw [(hres s hs).1] at hc
    exact StepStatus.noConfusion hc
  have hsteps := executeSteps_all_pass_init dflt defn ctx hall
  have hout : (executeSteps dflt defn (initExec defn ctx)).2.2 =
      .completed := by
    rw [hsteps]
  have hsaga := executeSaga_completed_ok dflt defn ctx hout hhook
  have hlen : (genExec dflt ctx defn.steps 0
      (runningExec defn ctx)).stepResults.length = defn.steps.length := by
    rw [genExec_stepResults,
      show (runningExec defn ctx).stepResults =
        ([] : List (StepResult Ctx Out Err)) from rfl]
    simp
  have hmem : ∀ r ∈ (genExec dflt ctx defn.steps 0
      (runningExec defn ctx)).stepResults,
      r.status = .SUCCESS ∧ r.attempts = 1 := by
    intro r hr
    rw [genExec_stepResults,
      show (runningExec defn ctx).stepResults =
        ([] : List (StepResult Ctx Out Err)) from rfl,
      List.nil_append] at hr
    obtain ⟨s, hs, rfl⟩ := List.mem_map.mp hr
    exact hres s hs
  rw [hsaga]
  simp only [hsteps]
  exact ⟨trivial, trivial, hlen, hmem⟩

theorem c2_witness :
    (executeSaga dfltW defnOkW 7).2.2 = none ∧
    (executeSaga dfltW defnOkW 7).2.1.status = .COMPLETED ∧
    (executeSaga dfltW defnOkW 7).2.1.stepResults.length =
      defnOkW.steps.length ∧
    ∀ r ∈ (executeSaga dfltW defnOkW 7).2.1.stepResults,
      r.status = .SUCCESS ∧ r.attempts = 1 := by
  refine c2_all_steps_first_attempt dfltW defnOkW 7 ?_ ?_ ?_
  · intro s hs
    rw [show defnOkW.steps = [stepOkW] from rfl, List.mem_singleton] at hs
    subst hs
    exact ⟨8, rfl⟩
  · intro s hs
    rw [show defnOkW.steps = [stepOkW] from rfl, List.mem_singleton] at hs
    subst hs
    decide
  · intro f hf
    rw [show defnOkW.onSuccess = none from rfl] at hf
    exact Option.noConfusion hf

theorem c3_terminal_or_throw {Ctx Out Err : Type} (dflt : RetryPolicy)
    (defn : SagaDefinition Ctx Out Err) (ctx : Ctx) :
    ((executeSaga dflt defn ctx).2.2 = none →
      (executeSaga dflt defn ctx).2.1.status = .COMPLETED ∨
      (executeSaga dflt defn ctx).2.1.status = .COMPENSATED) ∧
    (∀ e, (executeSaga dflt defn ctx).2.2 = some e →
      (executeSaga dflt defn ctx).2.1.status = .FAILED ∧
      (executeSaga dflt defn ctx).2.1.error = some e ∧
      (executeSaga dflt defn ctx).1.getLast? =
        some (.update (executeSaga dflt defn ctx).2.1)) ∧
    (∀ f e, defn.onSuccess = some f → f ctx = .error e →
      (executeSteps dflt defn (initExec defn ctx)).2.2 = .completed →
      (executeSaga dflt defn ctx).2.2 = some e) := by
  have hthird : ∀ f e, defn.onSuccess = some f → f ctx = .error e →
      (executeSteps dflt defn (initExec defn ctx)).2.2 = .completed →
      (executeSaga dflt defn ctx).2.2 = some e := by
    intro f e hf hfe hcompl
    rw [executeSaga_completed_throw dflt defn ctx f e hcompl hf hfe]
  refine ⟨?_, ?_, hthird⟩
  all_goals
    rcases hout : (executeSteps dflt defn (initExec defn ctx)).2.2 with _ | err
  case completed =>
    rcases hf : defn.onSuccess with _ | f
    · have hook : onSuccessOk defn ctx := by
        intro g hg
        rw [hf] at hg
        exact Option.noConfusion hg
      rw [executeSaga_completed_ok dflt defn ctx hout hook]
      exact fun _ => Or.inl rfl
    · rcases hfc : f ctx with e | u
      · rw [executeSaga_completed_throw dflt defn ctx f e hout hf hfc]
        exact fun hnone => Option.noConfusion hnone
      · have hook : onSuccessOk defn ctx := by
          intro g hg
          obtain rfl : f = g := Option.some.inj (hf.symm.trans hg)
          exact ⟨u, hfc⟩
        rw [executeSaga_completed_ok dflt defn ctx hout hook]
        exact fun _ => Or.inl rfl
  case failed =>
    rcases hc : (compensate defn
        (executeSteps dflt defn (initExec defn ctx)).2.1 err).2.2 with _ | e
    · rw [executeSaga_failed_ok dflt defn ctx err hout hc]
      exact fun _ => Or.inr (compensate_exec_status defn _ err)
    · rw [executeSaga_failed_throw dflt defn ctx err e hout hc]
      exact fun hnone => Option.noConfusion hnone
  case completed =>
    rcases hf : defn.onSuccess with _ | f
    · have hook : onSuccessOk defn ctx := by
        intro g hg
        rw [hf] at hg
        exact Option.noConfusion hg
      rw [executeSaga_completed_ok dflt defn ctx hout hook]
      exact fun e he => Option.noConfusion he
    · rcases hfc : f ctx with e | u
      · rw [executeSaga_completed_throw dflt defn ctx f e hout hf hfc]
        intro e2 he2
        obtain rfl : e = e2 := Option.some.inj he2
        exact ⟨rfl, rfl, getLast?_cons_concat _ _ _⟩
      · have hook : onSuccessOk defn ctx := by
          intro g hg
          obtain rfl : f = g := Option.some.inj (hf.symm.trans hg)
          exact ⟨u, hfc⟩
        rw [executeSaga_completed_ok dflt defn ctx hout hook]
        exact fun e he => Option.noConfusion he
  case failed =>
    rcases hc : (compensate defn
        (executeSteps dflt defn (initExec defn ctx)).2.1 err).2.2 with _ | e
    · rw [executeSaga_failed_ok dflt defn ctx err hout hc]
      exact fun e he => Option.noConfusion he
    · rw [executeSaga_failed_throw dflt defn ctx err e hout hc]
      intro e2 he2
      obtain rfl : e = e2 := Option.some.inj he2
      exact ⟨rfl, rfl, getLast?_cons_concat _ _ _⟩

theorem c3_witness :
    (executeSaga dfltW defnHookThrowW 7).2.2 = some "hookboom" ∧
    (executeSaga dfltW defnHookThrowW 7).2.1.status = .FAILED ∧
    (executeSaga dfltW defnHookThrowW 7).2.1.error = some "hookboom" := by
  have h1 := (c3_terminal_or_throw dfltW defnHookThrowW 7).2.2
    (fun _ => .error "hookboom") "hookboom" rfl rfl (by decide)
  have h2 := (c3_terminal_or_throw dfltW defnHookThrowW 7).2.1 "hookboom" h1
  exact ⟨h1, h2.1, h2.2.1⟩

theorem c9_onFailure_throw_overwrites {Ctx Out Err : Type}
    (dflt : RetryPolicy) (defn : SagaDefinition Ctx Out Err) (ctx : Ctx)
    (err : Option Err) (f : Ctx → Option Err → Except Err Unit) (e : Err)
    (hout : (executeSteps dflt defn (initExec defn ctx)).2.2 = .failed err)
    (hf : defn.onFailure = some f)
    (hthrow : f ctx err = .error e) :
    (executeSaga dflt defn ctx).2.2 = some e ∧
    (executeSaga dflt defn ctx).2.1.status = .FAILED ∧
    (executeSaga dflt defn ctx).2.1.error = some e ∧
    (compensate defn (executeSteps dflt defn (initExec defn ctx)).2.1
      err).2.1.status = .COMPENSATED ∧
    (executeSaga dflt defn ctx).2.1 =
      { (compensate defn (executeSteps dflt defn (initExec defn ctx)).2.1
        err).2.1 with status := .FAILED, error := some e } ∧
    (executeSaga dflt defn ctx).1.getLast? =
      some (.update (executeSaga dflt defn ctx).2.1) := by
  have hmidctx : (executeSteps dflt defn (initExec defn ctx)).2.1.context =
      ctx :=
    executeStepsLoop_context dflt ((initExec defn ctx).context) defn.steps 0
      { initExec defn ctx with status := .RUNNING }
  have hc : (compensate defn (executeSteps dflt defn (initExec defn ctx)).2.1
      err).2.2 = some e := by
    simp only [compensate]
    rw [hf]
    dsimp only
    rw [hmidctx, hthrow]
  have hsaga := executeSaga_failed_throw dflt defn ctx err e hout hc
  rw [hsaga]
  refine ⟨rfl, rfl, rfl, compensate_exec_status defn _ err, rfl, ?_⟩
  exact getLast?_cons_concat _ _ _

theorem c9_witness :
    (executeSaga dfltW defnFailHookThrowW 7).2.2 = some "failhook" ∧
    (executeSaga dfltW defnFailHookThrowW 7).2.1.status = .FAILED ∧
    (executeSaga dfltW defnFailHookThrowW 7).2.1.error = some "failhook" := by
  have h := c9_onFailure_throw_overwrites dfltW defnFailHookThrowW 7
    (some "boom") (fun _ _ => .error "failhook") "failhook" (by decide) rfl rfl
  exact ⟨h.1, h.2.1, h.2.2.1⟩

theorem c5_compensation_failure_tolerated {Ctx Out Err : Type}
    (defn : SagaDefinition Ctx Out Err) (exec : SagaExecution Ctx Out Err)
    (err : Option Err)
    (hhook : onFailureOk defn exec.context) :
    (compensate defn exec err).2.2 = none ∧
    (compensate defn exec err).2.1.status = .COMPENSATED ∧
    ∀ (j : Nat) (sr : StepResult Ctx Out Err)
      (step : TransactionStep Ctx Out Err)
      (comp : Ctx → Option Out → Except Err Unit),
      exec.stepResults[j]? = some sr →
      sr.status = .SUCCESS →
      defn.steps.find? (fun t => t.id == sr.stepId) = some step →
      step.compensation = some comp →
      (TraceEvent.compCall sr.stepId sr.input sr.output ∈
        (compensate defn exec err).1) ∧
      (∀ e, comp sr.input sr.output = .error e →
        (compensate defn exec err).2.1.stepResults[j]? = some sr) := by
  refine ⟨compensate_hookErr_none defn exec err hhook,
    compensate_exec_status defn exec err, ?_⟩
  intro j sr step comp hj hsrS hfind hcomp
  have hjlt : j < exec.stepResults.length := by
    rcases List.getElem?_eq_some.mp hj with ⟨h, _⟩
    exact h
  have hsucc : successAt exec.stepResults j = true := by
    simp [successAt, hj, hsrS]
  have hmemIdx : j ∈ ((List.range exec.stepResults.length).filter
      (successAt exec.stepResults)).reverse := by
    rw [List.mem_reverse]
    exact List.mem_filter.mpr ⟨List.mem_range.mpr hjlt, hsucc⟩
  have hnd : (((List.range exec.stepResults.length).filter
      (successAt exec.stepResults)).reverse).Nodup :=
    List.nodup_reverse.mpr ((List.nodup_range _).filter _)
  constructor
  · rw [compensate_trace_eq]
    apply List.mem_cons_of_mem
    rw [compSweep_trace defn.steps _ _ hnd]
    rw [List.mem_flatMap]
    refine ⟨j, hmemIdx, ?_⟩
    rcases hres : comp sr.input sr.output with e | u
    · rw [compSweepOne_compError defn.steps exec.stepResults j sr step comp e
        hj hfind hcomp hres]
      exact List.mem_singleton.mpr rfl
    · rw [compSweepOne_compOk defn.steps exec.stepResults j sr step comp u
        hj hfind hcomp hres]
      exact List.mem_singleton.mpr rfl
  · intro e he
    rw [compensate_results_eq]
    rw [compSweep_get?_mem defn.steps _ exec.stepResults j hnd hmemIdx]
    rw [compSweepOne_compError defn.steps exec.stepResults j sr step comp e
      hj hfind hcomp he]
    exact hj

theorem c5_witness :
    (compensate defnC5W execC5W (some "boom")).2.2 = none ∧
    (compensate defnC5W execC5W (some "boom")).2.1.status = .COMPENSATED ∧
    TraceEvent.compCall "s3" 7 (some 10) ∈
      (compensate defnC5W execC5W (some "boom")).1 ∧
    (compensate defnC5W execC5W (some "boom")).2.1.stepResults[0]? =
      some r1W := by
  have h := c5_compensation_failure_tolerated defnC5W execC5W (some "boom")
    (by
      intro f hf
      rw [show defnC5W.onFailure = none from rfl] at hf
      exact Option.noConfusion hf)
  have h3 := h.2.2 0 r1W stepCompFailW (fun _ _ => .error "compfail")
    rfl rfl rfl rfl
  exact ⟨h.1, h.2.1, h3.1, h3.2 "compfail" rfl⟩

theorem compCallIds_nil {Ctx Out Err : Type} :
    compCallIds ([] : List (TraceEvent Ctx Out Err)) = [] := rfl

theorem c1_first_failure_compensates {Ctx Out Err : Type} (dflt : RetryPolicy)
    (defn : SagaDefinition Ctx Out Err) (ctx : Ctx) (k : Nat)
    (sk : TransactionStep Ctx Out Err)
    (hnd : (defn.steps.map (fun s => s.id)).Nodup)
    (hk : defn.steps[k]? = some sk)
    (hkF : (stepRes dflt ctx sk).status = .FAILED)
    (hpre : ∀ j s, j < k → defn.steps[j]? = some s →
      (stepRes dflt ctx s).status = .SUCCESS)
    (hhook : onFailureOk defn ctx) :
    (executeSaga dflt defn ctx).2.2 = none ∧
    (executeSaga dflt defn ctx).2.1.status = .COMPENSATED ∧
    (executeSaga dflt defn ctx).2.1.stepResults.length = k + 1 ∧
    (∃ r, (executeSaga dflt defn ctx).2.1.stepResults[k]? = some r ∧
      r.status = .FAILED) ∧
    (∀ id a, TraceEvent.actionCall id a ∈ (executeSaga dflt defn ctx).1 →
      id ∈ (defn.steps.take (k + 1)).map (fun s => s.id)) ∧
    compCallIds (executeSaga dflt defn ctx).1 =
      (((defn.steps.take k).filter (fun s => s.compensation.isSome)).map
        (fun s => s.id)).reverse := by
  obtain ⟨hklt, hgetk⟩ := List.getElem?_eq_some.mp hk
  have hsteps := executeSteps_first_fail_init dflt defn ctx k sk hk hkF hpre
  have hout : (executeSteps dflt defn (initExec defn ctx)).2.2 =
      .failed (stepRes dflt ctx sk).error := by
    rw [hsteps]
  have hmid : (executeSteps dflt defn (initExec defn ctx)).2.1 =
      failMidExec dflt defn ctx k sk := by
    rw [hsteps]
  have hhookm : onFailureOk defn ((failMidExec dflt defn ctx k sk).context) := by
    rw [failMidExec_context]
    exact hhook
  have hc : (compensate defn (executeSteps dflt defn (initExec defn ctx)).2.1
      (stepRes dflt ctx sk).error).2.2 = none := by
    rw [hmid]
    exact compensate_hookErr_none defn _ _ hhookm
  have hsaga := executeSaga_failed_ok dflt defn ctx
    (stepRes dflt ctx sk).error hout hc
  simp only [hsteps] at hsaga
  set pres : List (StepResult Ctx Out Err) :=
    (defn.steps.take k).map (stepRes dflt ctx) with hpres
  set fres : StepResult Ctx Out Err := stepRes dflt ctx sk with hfres
  have hrs : (failMidExec dflt defn ctx k sk).stepResults = pres ++ [fres] :=
    failMidExec_results dflt defn ctx k sk
  have hpresLen : pres.length = k := by
    rw [hpres, List.length_map, List.length_take]
    omega
  have hrsk : (pres ++ [fres])[k]? = some fres := by
    rw [← hpresLen]
    exact List.getElem?_concat_length _ _
  have hsucclt : ∀ j, j < k → successAt (pres ++ [fres]) j = true := by
    intro j hj
    obtain ⟨s, hs⟩ : ∃ s, defn.steps[j]? = some s := by
      rcases hx : defn.steps[j]? with _ | s
      · rw [List.getElem?_eq_none_iff] at hx
        omega
      · exact ⟨s, rfl⟩
    have hpj : (pres ++ [fres])[j]? = some (stepRes dflt ctx s) := by
      rw [List.getElem?_append_left (by rw [hpresLen]; exact hj), hpres,
        List.getElem?_map, List.getElem?_take_of_lt hj, hs]
      rfl
    simp [successAt, hpj, hpre j s hj hs]
  have hsucck : successAt (pres ++ [fres]) k = false := by
    have hkF2 : fres.status = .FAILED := hkF
    simp [successAt, hrsk, hkF2]
  have hfilter : (List.range (pres ++ [fres]).length).filter
      (successAt (pres ++ [fres])) = List.range k := by
    have hlenrs : (pres ++ [fres]).length = k + 1 := by
      rw [List.length_append, hpresLen]
      rfl
    rw [hlenrs, List.range_succ, List.filter_append]
    rw [List.filter_eq_self.mpr (fun j hj => hsucclt j (List.mem_range.mp hj))]
    rw [show List.filter (successAt (pres ++ [fres])) [k] = [] from by
      simp [hsucck]]
    rw [List.append_nil]
  have hndk : ((List.range k).reverse).Nodup :=
    List.nodup_reverse.mpr (List.nodup_range k)
  have hknotmem : k ∉ (List.range k).reverse := by
    rw [List.mem_reverse, List.mem_range]
    omega
  have hres4 : (compensate defn (failMidExec dflt defn ctx k sk)
      (stepRes dflt ctx sk).error).2.1.stepResults[k]? = some fres := by
    rw [compensate_results_eq, hrs, hfilter]
    rw [compSweep_get?_not_mem defn.steps _ _ k hknotmem]
    exact hrsk
  refine ⟨?_, ?_, ?_, ?_, ?_, ?_⟩
  · rw [hsaga]
  · rw [hsaga]
    exact compensate_exec_status defn (failMidExec dflt defn ctx k sk)
      fres.error
  · rw [hsaga]
    exact (compensate_exec_length defn (failMidExec dflt defn ctx k sk)
      fres.error).trans
      (failMidExec_length dflt defn ctx k sk (Nat.le_of_lt hklt))
  · rw [hsaga]
    exact ⟨fres, hres4, hkF⟩
  · intro id a hmem
    rw [hsaga] at hmem
    have htake : defn.steps.take (k + 1) = defn.steps.take k ++ [sk] := by
      rw [List.take_succ, hk]
      rfl
    have hgenCase : (TraceEvent.actionCall id a : TraceEvent Ctx Out Err) ∈
        genTrace dflt ctx (defn.steps.take k) 0 (runningExec defn ctx) →
        id ∈ (defn.steps.take (k + 1)).map (fun s => s.id) := by
      intro hmem2
      rcases genTrace_events dflt ctx _ _ _ _ hmem2 with
        ⟨e, he⟩ | ⟨s, hsmem, hstep⟩
      · exact absurd he (by simp)
      · rcases executeStepLoop_events _ s ctx 1 _ _ _ hstep with
          ⟨n, heq⟩ | ⟨d, heq⟩
        · have hid : id = s.id := by
            injection heq with h1 h2
          rw [hid, htake, List.map_append, List.mem_append]
          exact Or.inl (List.mem_map_of_mem _ hsmem)
        · exact absurd heq (by simp)
    have hskCase : (TraceEvent.actionCall id a : TraceEvent Ctx Out Err) ∈
        stepTr dflt ctx sk →
        id ∈ (defn.steps.take (k + 1)).map (fun s => s.id) := by
      intro hmem2
      rcases executeStepLoop_events _ sk ctx 1 _ _ _ hmem2 with
          ⟨n, heq⟩ | ⟨d, heq⟩
      · have hid : id = sk.id := by
          injection heq with h1 h2
        rw [hid, htake, List.map_append, List.mem_append]
        exact Or.inr (by simp)
      · exact absurd heq (by simp)
    have hcompCase : (TraceEvent.actionCall id a : TraceEvent Ctx Out Err) ∈
        (compensate defn (failMidExec dflt defn ctx k sk) fres.error).1 →
        id ∈ (defn.steps.take (k + 1)).map (fun s => s.id) := fun hmem2 =>
      absurd hmem2 (compensate_no_actionCall defn _ _ id a)
    simp only [List.mem_cons, List.mem_append, List.mem_singleton] at hmem
    rcases hmem with ((h | h | h | h) | h) | h
    · exact absurd h (by simp)
    · exact absurd h (by simp)
    · exact hgenCase h
    · exact hskCase h
    · exact hcompCase h
    · exact absurd h (by simp)
  · rw [hsaga]
    simp only [List.cons_append]
    rw [compCallIds_cons_save, compCallIds_cons_update]
    rw [compCallIds_append, compCallIds_append, compCallIds_append,
      compCallIds_genTrace, compCallIds_stepTr,
      compCallIds_cons_update, compCallIds_nil]
    simp only [List.append_nil, List.nil_append]
    rw [compensate_trace_eq, compCallIds_cons_update, hrs, hfilter]
    rw [compSweep_trace defn.steps _ _ hndk]
    rw [compCallIds_flatMap]
    have hmk : k ≤ (defn.steps.take k).length := by
      rw [List.length_take]
      omega
    have hone : ∀ b : TransactionStep Ctx Out Err,
        ((if b.compensation.isSome then [b.id] else []) : List String).length
          ≤ 1 := by
      intro b
      by_cases hb : b.compensation.isSome <;> simp [hb]
    have hg : ∀ j (b : TransactionStep Ctx Out Err),
        (defn.steps.take k)[j]? = some b →
        compCallIds ((compSweepOne defn.steps (pres ++ [fres]) j).1) =
          (if b.compensation.isSome then [b.id] else []) := by
      intro j b hjb
      have hjk : j < k := by
        by_contra hge
        rw [List.getElem?_take_eq_none (by omega)] at hjb
        exact Option.noConfusion hjb
      have hsj : defn.steps[j]? = some b := by
        rw [← List.getElem?_take_of_lt hjk]
        exact hjb
      have hpj : (pres ++ [fres])[j]? = some (stepRes dflt ctx b) := by
        rw [List.getElem?_append_left (by rw [hpresLen]; exact hjk), hpres,
          List.getElem?_map, List.getElem?_take_of_lt hjk, hsj]
        rfl
      have hfindb : defn.steps.find?
          (fun t => t.id == (stepRes dflt ctx b).stepId) = some b := by
        rw [stepRes_stepId]
        exact find?_id_of_nodup defn.steps hnd j b hsj
      rcases hbc : b.compensation with _ | comp
      · rw [compSweepOne_noComp defn.steps _ j _ b hpj hfindb hbc]
        simp [compCallIds, hbc]
      · rcases hcc : comp (stepRes dflt ctx b).input
            (stepRes dflt ctx b).output with e | u
        · rw [compSweepOne_compError defn.steps _ j _ b comp e hpj hfindb
            hbc hcc]
          simp [compCallIds, hbc, stepRes_stepId]
        · rw [compSweepOne_compOk defn.steps _ j _ b comp u hpj hfindb
            hbc hcc]
          simp [compCallIds, hbc, stepRes_stepId]
    rw [revRange_flatMap (defn.steps.take k)
      (fun j => compCallIds ((compSweepOne defn.steps (pres ++ [fres]) j).1))
      (fun b => if b.compensation.isSome then [b.id] else []) hone hg k hmk]
    rw [List.take_of_length_le (by rw [List.length_take]; omega)]
    rw [flatMap_if_singleton]

theorem c1_witness :
    (executeSaga dfltW defnFailW 7).2.2 = none ∧
    (executeSaga dfltW defnFailW 7).2.1.status = .COMPENSATED ∧
    (executeSaga dfltW defnFailW 7).2.1.stepResults.length = 2 ∧
    compCallIds (executeSaga dfltW defnFailW 7).1 = ["s1"] := by
  have h := c1_first_failure_compensates dfltW defnFailW 7 1 stepFailW
    (by decide) rfl (by decide)
    (by
      intro j s hj hs
      have hj0 : j = 0 := by omega
      subst hj0
      rw [show defnFailW.steps[0]? = some stepOkW from rfl] at hs
      obtain rfl : stepOkW = s := Option.some.inj hs
      decide)
    (by
      intro f hf
      rw [show defnFailW.onFailure = none from rfl] at hf
      exact Option.noConfusion hf)
  exact ⟨h.1, h.2.1, h.2.2.1, h.2.2.2.2.2⟩

theorem persistedProj_nil {Ctx Out Err : Type} :
    persistedProj ([] : List (TraceEvent Ctx Out Err)) = [] := rfl

theorem c8_counterexample :
    persistedProj (executeSaga dfltW defnFail1W 0).1 =
      [(SagaStatus.PENDING, 0, none), (SagaStatus.RUNNING, 0, none),
       (SagaStatus.COMPENSATING, 1, some 0),
       (SagaStatus.COMPENSATED, 1, some 0)] ∧
    (SagaStatus.RUNNING, 1, some 0) ∉
      persistedProj (executeSaga dfltW defnFail1W 0).1 := by
  refine ⟨rfl, ?_⟩
  decide

theorem c8_persistence_cadence {Ctx Out Err : Type} (dflt : RetryPolicy)
    (defn : SagaDefinition Ctx Out Err) (ctx : Ctx) (k : Nat)
    (sk : TransactionStep Ctx Out Err)
    (hk : defn.steps[k]? = some sk)
    (hkF : (stepRes dflt ctx sk).status = .FAILED)
    (hpre : ∀ j s, j < k → defn.steps[j]? = some s →
      (stepRes dflt ctx s).status = .SUCCESS)
    (hhook : onFailureOk defn ctx) :
    (executeSaga dflt defn ctx).1.take 2 =
      [.save (initExec defn ctx), .update (runningExec defn ctx)] ∧
    (initExec defn ctx).status = .PENDING ∧
    (runningExec defn ctx).status = .RUNNING ∧
    persistedProj (executeSaga dflt defn ctx).1 =
      [(SagaStatus.PENDING, 0, none), (SagaStatus.RUNNING, 0, none)] ++
        (List.range k).map (fun j => (SagaStatus.RUNNING, j + 1, some j)) ++
        [(SagaStatus.COMPENSATING, k + 1, some k),
         (SagaStatus.COMPENSATED, k + 1, some k)] := by
  obtain ⟨hklt, hgetk⟩ := List.getElem?_eq_some.mp hk
  have hkle : k ≤ defn.steps.length := Nat.le_of_lt hklt
  have hsteps := executeSteps_first_fail_init dflt defn ctx k sk hk hkF hpre
  have hout : (executeSteps dflt defn (initExec defn ctx)).2.2 =
      .failed (stepRes dflt ctx sk).error := by
    rw [hsteps]
  have hmid : (executeSteps dflt defn (initExec defn ctx)).2.1 =
      failMidExec dflt defn ctx k sk := by
    rw [hsteps]
  have hhookm : onFailureOk defn ((failMidExec dflt defn ctx k sk).context) := by
    rw [failMidExec_context]
    exact hhook
  have hc : (compensate defn (executeSteps dflt defn (initExec defn ctx)).2.1
      (stepRes dflt ctx sk).error).2.2 = none := by
    rw [hmid]
    exact compensate_hookErr_none defn _ _ hhookm
  have hsaga := executeSaga_failed_ok dflt defn ctx
    (stepRes dflt ctx sk).error hout hc
  simp only [hsteps] at hsaga
  refine ⟨?_, rfl, rfl, ?_⟩
  · rw [hsaga]
    rfl
  · rw [hsaga]
    simp only [List.cons_append]
    rw [persistedProj_cons_save, persistedProj_cons_update]
    rw [persistedProj_append, persistedProj_append, persistedProj_append]
    rw [persistedProj_genTrace, persistedProj_stepTr, persistedProj_compensate]
    rw [persistedProj_cons_update, persistedProj_nil]
    rw [compensate_exec_status, compensate_exec_length,
      compensate_exec_currentStep]
    rw [failMidExec_length dflt defn ctx k sk hkle,
      failMidExec_currentStep dflt defn ctx k sk hkle]
    rw [List.append_nil]
    have hlen : (defn.steps.take k).length = k := by
      rw [List.length_take]
      omega
    rw [hlen]
    have hmapeq : (List.range k).map
        (fun j => ((runningExec defn ctx).status,
          (runningExec defn ctx).stepResults.length + (j + 1), some (0 + j))) =
        (List.range k).map
          (fun j => (SagaStatus.RUNNING, j + 1, some j)) :=
      List.map_congr_left (fun j _ => by
        show (SagaStatus.RUNNING, 0 + (j + 1), some (0 + j)) = _
        simp)
    rw [hmapeq]
    rw [List.append_assoc]
    rfl

theorem c8_witness :
    (executeSaga dfltW defnFailW 7).1.take 2 =
      [.save (initExec defnFailW 7), .update (runningExec defnFailW 7)] ∧
    persistedProj (executeSaga dfltW defnFailW 7).1 =
      [(SagaStatus.PENDING, 0, none), (SagaStatus.RUNNING, 0, none),
       (SagaStatus.RUNNING, 1, some 0),
       (SagaStatus.COMPENSATING, 2, some 1),
       (SagaStatus.COMPENSATED, 2, some 1)] := by
  have h := c8_persistence_cadence dfltW defnFailW 7 1 stepFailW
    rfl (by decide)
    (by
      intro j s hj hs
      have hj0 : j = 0 := by omega
      subst hj0
      rw [show defnFailW.steps[0]? = some stepOkW from rfl] at hs
      obtain rfl : stepOkW = s := Option.some.inj hs
      decide)
    (by
      intro f hf
      rw [show defnFailW.onFailure = none from rfl] at hf
      exact Option.noConfusion hf)
  refine ⟨h.1, ?_⟩
  rw [h.2.2.2]
  rfl

end Claims
